import Mathlib

/-! go-codegen: the rendering orchestrator and the command-line target loop

A shallow embedding of `pkg/codegen/codegen.go` and of the target loop of
`cmd/go-codegen/go-codegen.go`.

* A Go `string` holding generated text is a list of bytes (`Code`); names taken from
  the parsed document are `String`s, compared in byte order like Go compares strings.
* A Go function returning `(T, error)` becomes a function into `Except Error T`;
  `Generate` keeps both of its results explicit.
* Functions and types that the two files use but do not define (the template engine,
  schema synthesis, the formatter, the kin-openapi document types) are fields of
  `Ext` and `Env`; every definition is parametric in them.
* The order in which a Go `range` visits the keys of a map is not fixed by the
  language; it is the field `Env.mapRange`.
-/

namespace Codegen

deriving instance DecidableEq for Except

/-! ## Strings, bytes and errors -/

/-- Go `error` values, represented by their message. -/
abbrev Error := String

/-- Generated source text: a Go `string`, that is a sequence of bytes (each below 256). -/
abbrev Code := List Nat

/-- The function `errors.Wrap(err, message)` of `github.com/pkg/errors`: the message, a colon,
the cause. -/
def Wrap (err : Error) (message : String) : Error := message ++ ": " ++ err

/-- The message of a nil-pointer dereference, for an index into a map with an absent key
followed by a field access. -/
def nilDeref : Error := "panic: runtime error: invalid memory address or nil pointer dereference"

/-- UTF-8 encoding of one Unicode scalar value, as done by the Go compiler for string
literals and by `utf8.EncodeRune`. -/
def utf8EncodeRune (v : Nat) : Code :=
  if v ≤ 0x7F then [v]
  else if v ≤ 0x7FF then [0xC0 + v / 64, 0x80 + v % 64]
  else if v ≤ 0xFFFF then [0xE0 + v / 4096, 0x80 + (v / 64) % 64, 0x80 + v % 64]
  else [0xF0 + v / 262144, 0x80 + (v / 4096) % 64, 0x80 + (v / 64) % 64, 0x80 + v % 64]

/-- UTF-8 encoding of a character. -/
def utf8EncodeChar (c : Char) : Code := utf8EncodeRune c.toNat

/-- UTF-8 encoding of a sequence of characters. The byte strings of this form are exactly
the valid UTF-8 strings. -/
def utf8Chars (cs : List Char) : Code := cs.flatMap utf8EncodeChar

/-- The bytes of a string of characters. -/
def utf8 (s : String) : Code := utf8Chars s.toList

/-- The character U+FEFF (byte-order mark). -/
def BOM : Char := Char.ofNat 0xFEFF

/-- The Go string literal holding the single character U+FEFF: the three bytes EF BB BF. -/
def bomLiteral : Code := utf8Chars [BOM]

/-- Go compares strings byte by byte; this is the order `sort.Strings` sorts by. -/
def strLe (a b : String) : Prop := utf8 a ≤ utf8 b

instance strLe.decidable : DecidableRel strLe :=
  fun a b => inferInstanceAs (Decidable (utf8 a ≤ utf8 b))

instance strLe.isTotal : IsTotal String strLe := ⟨fun a b => le_total (utf8 a) (utf8 b)⟩

instance strLe.isTrans : IsTrans String strLe :=
  ⟨fun _ _ _ h1 h2 => le_trans (α := List Nat) h1 h2⟩

/-- Worker of `Replace`: scans `s` from the left; `skip` counts the bytes of the occurrence
of `old` just matched that are still to be passed over. -/
def Replace.scan (old new : Code) : Nat → Code → Code
  | _, [] => []
  | skip + 1, _ :: rest => Replace.scan old new skip rest
  | 0, b :: rest =>
    if old.isPrefixOf (b :: rest) then new ++ Replace.scan old new (old.length - 1) rest
    else b :: Replace.scan old new 0 rest

/-- The call `strings.Replace(s, old, new, -1)` of the Go standard library for a non-empty
`old`: every non-overlapping occurrence of the byte string `old`, found from left to
right, is replaced by `new`. -/
def Replace (s old new : Code) : Code := Replace.scan old new 0 s

/-- `SanitizeCode` (codegen.go:427-431): `strings.Replace` of the literal U+FEFF by the
empty string, with count -1. -/
def SanitizeCode (goCode : Code) : Code := Replace goCode bomLiteral []

/-! ## Data model -/

/-- `Options` (codegen.go:19-23). `ExcludeSchemas` is read at codegen.go:47. -/
structure Options where
  GenerateChiServer : Bool
  GenerateClient : Bool
  GenerateTypes : Bool
  ExcludeSchemas : List String
deriving DecidableEq

/-- Types declared outside the two source files: kin-openapi's `SchemaRef` and `Parameter`,
the fields of `Schema` and `OperationDefinition` that the two files never read, and the
path section of the document. -/
structure Ext where
  SchemaRef : Type
  Parameter : Type
  SchemaRest : Type
  OperationRest : Type
  Paths : Type

/-- A Go `map[string]V` as an association list; a key is bound to its first entry. -/
abbrev GoMap (α : Type) := List (String × α)

/-- Map index `m[k]`, with `none` for the zero value of an absent key. -/
def GoMap.get {α : Type} (m : GoMap α) (k : String) : Option α := List.lookup k m

/-- The key set of a map, without repetition. -/
def GoMap.keys {α : Type} (m : GoMap α) : List String := (m.map Prod.fst).dedup

/-- Modelled from the spec: the helpers `SortedSchemaKeys`, `SortedParameterKeys`,
`SortedResponsesKeys` and `SortedRequestBodyKeys` are not in the source files; the spec
has the collector iterate "in sorted-name order" over each component section, so each
returns the keys of its map sorted ascending. -/
def SortedKeys {α : Type} (m : GoMap α) : List String := m.keys.insertionSort strLe

/-- `Schema`: the field read by codegen.go, and the rest. -/
structure Schema (X : Ext) where
  HasAdditionalProperties : Bool
  rest : X.SchemaRest

/-- `TypeDefinition`, with the three fields set by codegen.go. -/
structure TypeDefinition (X : Ext) where
  TypeName : String
  JsonName : String
  Schema : Schema X

/-- `SecurityDefinition`. -/
structure SecurityDefinition where
  ProviderName : String
  Scopes : List String
deriving DecidableEq

/-- `OperationDefinition`: the field read by codegen.go, and the rest. -/
structure OperationDefinition (X : Ext) where
  SecurityDefinitions : List SecurityDefinition
  rest : X.OperationRest

/-- `Constants`: the context of constants.tmpl. -/
structure Constants where
  SecuritySchemeProviderNames : List String
deriving DecidableEq

/-- `openapi3.MediaType`; `Schema` is a pointer and may be nil. -/
structure MediaType (X : Ext) where
  Schema : Option X.SchemaRef

/-- `openapi3.ParameterRef`. -/
structure ParameterRef (X : Ext) where
  Ref : String
  Value : Option X.Parameter

/-- `openapi3.Response`. -/
structure Response (X : Ext) where
  Content : GoMap (MediaType X)

/-- `openapi3.ResponseRef`; the loader resolves references, so `Value` is populated. -/
structure ResponseRef (X : Ext) where
  Ref : String
  Value : Response X

/-- `openapi3.RequestBody`. -/
structure RequestBody (X : Ext) where
  Content : GoMap (MediaType X)

/-- `openapi3.RequestBodyRef`; the loader resolves references, so `Value` is populated. -/
structure RequestBodyRef (X : Ext) where
  Ref : String
  Value : RequestBody X

/-- `openapi3.Components`, the four sections read by codegen.go. -/
structure Components (X : Ext) where
  Schemas : GoMap X.SchemaRef
  Parameters : GoMap (ParameterRef X)
  Responses : GoMap (ResponseRef X)
  RequestBodies : GoMap (RequestBodyRef X)

/-- `openapi3.Swagger`. -/
structure Swagger (X : Ext) where
  Components : Components X
  Paths : X.Paths

/-- The context record passed to `ExecuteTemplate`. -/
inductive Context (X : Ext) where
  | constants (c : Constants)
  | types (Types : List (TypeDefinition X))

/-- A parsed `*template.Template`: a function from template name and context to text or
an error. -/
structure Template (X : Ext) where
  ExecuteTemplate : String → Context X → Except Error Code

/-- Functions called by the two source files and defined elsewhere. -/
structure Env (X : Ext) where
  /-- Calls `templates.Parse(t)`; `t` carries the `opts` template function. -/
  Parse : Options → Except Error (Template X)
  OperationDefinitions : Swagger X → Except Error (List (OperationDefinition X))
  GenerateGoSchema : Option X.SchemaRef → List String → Except Error (Schema X)
  GetAdditionalTypeDefs : Schema X → List (TypeDefinition X)
  /-- Calls `paramToGoType(param, nil)`. -/
  paramToGoType : Option X.Parameter → Except Error (Schema X)
  RefPathToGoType : String → Except Error String
  SchemaNameToTypeName : String → String
  SanitizeGoIdentity : String → String
  GenerateTypesForOperations : Template X → List (OperationDefinition X) → Except Error Code
  GenerateChiServer : Template X → List (OperationDefinition X) → Except Error Code
  GenerateClient : Template X → List (OperationDefinition X) → Except Error Code
  GenerateClientWithResponses :
    Template X → List (OperationDefinition X) → Except Error Code
  /-- Calls `imports.Process(filename, src, nil)`. -/
  importsProcess : String → Code → Except Error Code
  /-- The order in which `for k := range m` visits the keys of a map with the given key
  set. Go leaves it unspecified. -/
  mapRange : List String → List String

/-- What Go guarantees about `range` over a map: every key is visited exactly once. -/
def IsMapRange (r : List String → List String) : Prop := ∀ keys, (r keys).Perm keys

/-! ## `pkg/codegen/codegen.go` -/

section CodegenGo

variable {X : Ext}

/-- `m[k] = struct{}{}` on a `map[string]struct{}` given by its keys in insertion order. -/
def setInsert (m : List String) (k : String) : List String := if k ∈ m then m else m ++ [k]

/-- codegen.go:186-192: the keys of the map `providerNames`. -/
def GenerateConstants.providerNames (E : Env X) (ops : List (OperationDefinition X)) :
    List String :=
  ops.foldl
    (fun m op =>
      op.SecurityDefinitions.foldl
        (fun m sd => setInsert m (E.SanitizeGoIdentity sd.ProviderName)) m)
    []

/-- codegen.go:182-196: the value of `constants` when the template is executed. -/
def GenerateConstants.constants (E : Env X) (ops : List (OperationDefinition X)) :
    Constants :=
  (E.mapRange (GenerateConstants.providerNames E ops)).foldl
    (fun constants providerName =>
      { constants with
        SecuritySchemeProviderNames := constants.SecuritySchemeProviderNames ++ [providerName] })
    { SecuritySchemeProviderNames := [] }

/-- `GenerateConstants` (codegen.go:178-208). -/
def GenerateConstants (E : Env X) (t : Template X) (ops : List (OperationDefinition X)) :
    Except Error Code :=
  match t.ExecuteTemplate "constants.tmpl" (.constants (GenerateConstants.constants E ops)) with
  | .error err => .error ("error generating server interface: " ++ err)
  | .ok out => .ok out

/-- The loop of `GenerateTypesForSchemas` (codegen.go:219-237) over the remaining keys,
with the slice `types` built so far. -/
def GenerateTypesForSchemas.loop (E : Env X) (schemas : GoMap X.SchemaRef)
    (excludeSchemasMap : List String) :
    List String → List (TypeDefinition X) → Except Error (List (TypeDefinition X))
  | [], types => .ok types
  | schemaName :: keys, types =>
    if schemaName ∈ excludeSchemasMap then
      GenerateTypesForSchemas.loop E schemas excludeSchemasMap keys types
    else
      match E.GenerateGoSchema (schemas.get schemaName) [schemaName] with
      | .error err =>
        .error (Wrap err ("error converting Schema " ++ schemaName ++ " to Go type"))
      | .ok goSchema =>
        GenerateTypesForSchemas.loop E schemas excludeSchemasMap keys
          (types ++
            [{ JsonName := schemaName
               TypeName := E.SchemaNameToTypeName schemaName
               Schema := goSchema }] ++
            E.GetAdditionalTypeDefs goSchema)

/-- `GenerateTypesForSchemas` (codegen.go:212-239). The map `excludeSchemasMap` is only
tested for the presence of a key, so it is given by its keys. -/
def GenerateTypesForSchemas (E : Env X) (_t : Template X) (schemas : GoMap X.SchemaRef)
    (excludeSchemas : List String) : Except Error (List (TypeDefinition X)) :=
  GenerateTypesForSchemas.loop E schemas excludeSchemas (SortedKeys schemas) []

/-- The loop of `GenerateTypesForParameters` (codegen.go:245-269). -/
def GenerateTypesForParameters.loop (E : Env X) (params : GoMap (ParameterRef X)) :
    List String → List (TypeDefinition X) → Except Error (List (TypeDefinition X))
  | [], types => .ok types
  | paramName :: keys, types =>
    match params.get paramName with
    | none => .error nilDeref
    | some paramOrRef =>
      match E.paramToGoType paramOrRef.Value with
      | .error err =>
        .error (Wrap err ("error generating Go type for schema in parameter " ++ paramName))
      | .ok goType =>
        if paramOrRef.Ref ≠ "" then
          match E.RefPathToGoType paramOrRef.Ref with
          | .error err =>
            .error (Wrap err ("error generating Go type for (" ++ paramOrRef.Ref ++
              ") in parameter " ++ paramName))
          | .ok refType =>
            GenerateTypesForParameters.loop E params keys
              (types ++
                [{ JsonName := paramName
                   Schema := goType
                   TypeName := E.SchemaNameToTypeName refType }])
        else
          GenerateTypesForParameters.loop E params keys
            (types ++
              [{ JsonName := paramName
                 Schema := goType
                 TypeName := E.SchemaNameToTypeName paramName }])

/-- `GenerateTypesForParameters` (codegen.go:243-271). -/
def GenerateTypesForParameters (E : Env X) (_t : Template X)
    (params : GoMap (ParameterRef X)) : Except Error (List (TypeDefinition X)) :=
  GenerateTypesForParameters.loop E params (SortedKeys params) []

/-- The loop of `GenerateTypesForResponses` (codegen.go:278-308). -/
def GenerateTypesForResponses.loop (E : Env X) (responses : GoMap (ResponseRef X)) :
    List String → List (TypeDefinition X) → Except Error (List (TypeDefinition X))
  | [], types => .ok types
  | responseName :: keys, types =>
    match responses.get responseName with
    | none => .error nilDeref
    | some responseOrRef =>
      match responseOrRef.Value.Content.get "application/json" with
      | none => GenerateTypesForResponses.loop E responses keys types
      | some jsonResponse =>
        match E.GenerateGoSchema jsonResponse.Schema [responseName] with
        | .error err =>
          .error (Wrap err ("error generating Go type for schema in response " ++ responseName))
        | .ok goType =>
          if responseOrRef.Ref ≠ "" then
            match E.RefPathToGoType responseOrRef.Ref with
            | .error err =>
              .error (Wrap err ("error generating Go type for (" ++ responseOrRef.Ref ++
                ") in parameter " ++ responseName))
            | .ok refType =>
              GenerateTypesForResponses.loop E responses keys
                (types ++
                  [{ JsonName := responseName
                     Schema := goType
                     TypeName := E.SchemaNameToTypeName refType }])
          else
            GenerateTypesForResponses.loop E responses keys
              (types ++
                [{ JsonName := responseName
                   Schema := goType
                   TypeName := E.SchemaNameToTypeName responseName }])

/-- `GenerateTypesForResponses` (codegen.go:275-310). -/
def GenerateTypesForResponses (E : Env X) (_t : Template X)
    (responses : GoMap (ResponseRef X)) : Except Error (List (TypeDefinition X)) :=
  GenerateTypesForResponses.loop E responses (SortedKeys responses) []

/-- The loop of `GenerateTypesForRequestBodies` (codegen.go:317-346). -/
def GenerateTypesForRequestBodies.loop (E : Env X) (bodies : GoMap (RequestBodyRef X)) :
    List String → List (TypeDefinition X) → Except Error (List (TypeDefinition X))
  | [], types => .ok types
  | bodyName :: keys, types =>
    match bodies.get bodyName with
    | none => .error nilDeref
    | some bodyOrRef =>
      match bodyOrRef.Value.Content.get "application/json" with
      | none => GenerateTypesForRequestBodies.loop E bodies keys types
      | some jsonBody =>
        match E.GenerateGoSchema jsonBody.Schema [bodyName] with
        | .error err =>
          .error (Wrap err ("error generating Go type for schema in body " ++ bodyName))
        | .ok goType =>
          if bodyOrRef.Ref ≠ "" then
            match E.RefPathToGoType bodyOrRef.Ref with
            | .error err =>
              .error (Wrap err ("error generating Go type for (" ++ bodyOrRef.Ref ++
                ") in body " ++ bodyName))
            | .ok refType =>
              GenerateTypesForRequestBodies.loop E bodies keys
                (types ++
                  [{ JsonName := bodyName
                     Schema := goType
                     TypeName := E.SchemaNameToTypeName refType }])
          else
            GenerateTypesForRequestBodies.loop E bodies keys
              (types ++
                [{ JsonName := bodyName
                   Schema := goType
                   TypeName := E.SchemaNameToTypeName bodyName }])

/-- `GenerateTypesForRequestBodies` (codegen.go:314-348). -/
def GenerateTypesForRequestBodies (E : Env X) (_t : Template X)
    (bodies : GoMap (RequestBodyRef X)) : Except Error (List (TypeDefinition X)) :=
  GenerateTypesForRequestBodies.loop E bodies (SortedKeys bodies) []

/-- `GenerateTypes` (codegen.go:352-371). -/
def GenerateTypes (t : Template X) (types : List (TypeDefinition X)) : Except Error Code :=
  match t.ExecuteTemplate "typedef.tmpl" (.types types) with
  | .error err => .error (Wrap err "error generating types")
  | .ok out => .ok out

/-- codegen.go:401-406: the slice `filteredTypes` after the loop. -/
def GenerateAdditionalPropertyBoilerplate.filteredTypes (typeDefs : List (TypeDefinition X)) :
    List (TypeDefinition X) :=
  typeDefs.foldl
    (fun filteredTypes t =>
      if t.Schema.HasAdditionalProperties then filteredTypes ++ [t] else filteredTypes)
    []

/-- `GenerateAdditionalPropertyBoilerplate` (codegen.go:397-423). -/
def GenerateAdditionalPropertyBoilerplate (t : Template X)
    (typeDefs : List (TypeDefinition X)) : Except Error Code :=
  match t.ExecuteTemplate "additional-properties.tmpl"
      (.types (GenerateAdditionalPropertyBoilerplate.filteredTypes typeDefs)) with
  | .error err => .error (Wrap err "error generating additional properties code")
  | .ok out => .ok out

/-- codegen.go:135-156: the slice `allTypes` of `GenerateTypeDefinitions`, or the error
returned before it is complete. -/
def GenerateTypeDefinitions.allTypes (E : Env X) (t : Template X) (swagger : Swagger X)
    (excludeSchemas : List String) : Except Error (List (TypeDefinition X)) :=
  match GenerateTypesForSchemas E t swagger.Components.Schemas excludeSchemas with
  | .error err => .error (Wrap err "error generating Go types for component schemas")
  | .ok schemaTypes =>
    match GenerateTypesForParameters E t swagger.Components.Parameters with
    | .error err => .error (Wrap err "error generating Go types for component parameters")
    | .ok paramTypes =>
      match GenerateTypesForResponses E t swagger.Components.Responses with
      | .error err => .error (Wrap err "error generating Go types for component responses")
      | .ok responseTypes =>
        match GenerateTypesForRequestBodies E t swagger.Components.RequestBodies with
        | .error err =>
          .error (Wrap err "error generating Go types for component request bodies")
        | .ok bodyTypes => .ok (schemaTypes ++ paramTypes ++ responseTypes ++ bodyTypes)

/-- `GenerateTypeDefinitions` (codegen.go:134-175). -/
def GenerateTypeDefinitions (E : Env X) (t : Template X) (swagger : Swagger X)
    (ops : List (OperationDefinition X)) (excludeSchemas : List String) :
    Except Error Code :=
  match GenerateTypeDefinitions.allTypes E t swagger excludeSchemas with
  | .error err => .error err
  | .ok allTypes =>
    match E.GenerateTypesForOperations t ops with
    | .error err => .error (Wrap err "error generating Go types for operation parameters")
    | .ok paramTypesOut =>
      match GenerateTypes t allTypes with
      | .error err => .error (Wrap err "error generating code for type definitions")
      | .ok typesOut =>
        match GenerateAdditionalPropertyBoilerplate t allTypes with
        | .error err => .error (Wrap err "error generating allOf boilerplate")
        | .ok allOfBoilerplate => .ok (typesOut ++ paramTypesOut ++ allOfBoilerplate)

/-- The two results of `Generate`, and what it printed with `fmt.Println`. -/
structure GenerateResult where
  code : Code
  err : Option Error
  stdout : List Code
deriving DecidableEq

/-- An error return of `Generate`: `return "", errors.Wrap(err, message)`. -/
def Generate.fail (err : Error) (message : String) : GenerateResult :=
  { code := [], err := some (Wrap err message), stdout := [] }

/-- codegen.go:45-57: the types and the constants, generated when `opts.GenerateTypes`
is set and empty otherwise; or the error return taken. -/
def Generate.typesStage (E : Env X) (t : Template X) (swagger : Swagger X)
    (ops : List (OperationDefinition X)) (opts : Options) :
    Except GenerateResult (Code × Code) :=
  if opts.GenerateTypes then
    match GenerateTypeDefinitions E t swagger ops opts.ExcludeSchemas with
    | .error err => .error (Generate.fail err "error generating type definitions")
    | .ok typeDefinitions =>
      match GenerateConstants E t ops with
      | .error err => .error (Generate.fail err "error generating constants")
      | .ok constantDefinitions => .ok (typeDefinitions, constantDefinitions)
  else .ok ([], [])

/-- codegen.go:59-65: `chiServerOut`. -/
def Generate.chiServerStage (E : Env X) (t : Template X)
    (ops : List (OperationDefinition X)) (opts : Options) : Except GenerateResult Code :=
  if opts.GenerateChiServer then
    match E.GenerateChiServer t ops with
    | .error err => .error (Generate.fail err "error generating Go handlers for Paths")
    | .ok chiServerOut => .ok chiServerOut
  else .ok []

/-- codegen.go:67-73: `clientOut`. -/
def Generate.clientStage (E : Env X) (t : Template X)
    (ops : List (OperationDefinition X)) (opts : Options) : Except GenerateResult Code :=
  if opts.GenerateClient then
    match E.GenerateClient t ops with
    | .error err => .error (Generate.fail err "error generating client")
    | .ok clientOut => .ok clientOut
  else .ok []

/-- codegen.go:75-81: `clientWithResponsesOut`. -/
def Generate.clientWithResponsesStage (E : Env X) (t : Template X)
    (ops : List (OperationDefinition X)) (opts : Options) : Except GenerateResult Code :=
  if opts.GenerateClient then
    match E.GenerateClientWithResponses t ops with
    | .error err => .error (Generate.fail err "error generating client with responses")
    | .ok clientWithResponsesOut => .ok clientWithResponsesOut
  else .ok []

/-- codegen.go:83-118: `buf.String()` after the flush. Writes to the buffered writer over
a `bytes.Buffer` append to the text and do not fail. -/
def Generate.buffer (opts : Options)
    (constantDefinitions typeDefinitions clientOut clientWithResponsesOut chiServerOut : Code) :
    Code :=
  let buf : Code := []
  let buf := buf ++ constantDefinitions
  let buf := buf ++ typeDefinitions
  let buf := if opts.GenerateClient then (buf ++ clientOut) ++ clientWithResponsesOut else buf
  let buf := if opts.GenerateChiServer then buf ++ chiServerOut else buf
  buf

/-- `Generate` (codegen.go:28-132). -/
def Generate (E : Env X) (swagger : Swagger X) (packageName : String) (opts : Options) :
    GenerateResult :=
  match E.Parse opts with
  | .error err => Generate.fail err "error parsing oapi-codegen templates"
  | .ok t =>
    match E.OperationDefinitions swagger with
    | .error err => Generate.fail err "error creating operation definitions"
    | .ok ops =>
      match Generate.typesStage E t swagger ops opts with
      | .error r => r
      | .ok (typeDefinitions, constantDefinitions) =>
        match Generate.chiServerStage E t ops opts with
        | .error r => r
        | .ok chiServerOut =>
          match Generate.clientStage E t ops opts with
          | .error r => r
          | .ok clientOut =>
            match Generate.clientWithResponsesStage E t ops opts with
            | .error r => r
            | .ok clientWithResponsesOut =>
              let goCode := SanitizeCode
                (Generate.buffer opts constantDefinitions typeDefinitions clientOut
                  clientWithResponsesOut chiServerOut)
              match E.importsProcess (packageName ++ ".go") goCode with
              | .error err =>
                { code := [], err := some (Wrap err "error formatting Go code")
                  stdout := [goCode] }
              | .ok outBytes => { code := outBytes, err := none, stdout := [] }

/-- A component response whose `Content` has an entry for `application/json`. -/
def ResponseHasJSON (responses : GoMap (ResponseRef X)) (responseName : String) : Bool :=
  match responses.get responseName with
  | none => false
  | some responseOrRef => (responseOrRef.Value.Content.get "application/json").isSome

/-- A component request body whose `Content` has an entry for `application/json`. -/
def RequestBodyHasJSON (bodies : GoMap (RequestBodyRef X)) (bodyName : String) : Bool :=
  match bodies.get bodyName with
  | none => false
  | some bodyOrRef => (bodyOrRef.Value.Content.get "application/json").isSome

/-- The type name codegen.go gives the entry of a component parameter, response or
request body whose reference string is `ref` (codegen.go:253-266, 292-305, 330-343):
with an empty `ref`, `SchemaNameToTypeName` of the component's own name; with a
non-empty `ref`, `SchemaNameToTypeName` of the name `RefPathToGoType` returns for
`ref`. -/
def TypeNameFromSource (E : Env X) (ref : String) (td : TypeDefinition X) : Prop :=
  (ref = "" ∧ td.TypeName = E.SchemaNameToTypeName td.JsonName) ∨
    (ref ≠ "" ∧ ∃ refType, E.RefPathToGoType ref = .ok refType ∧
      td.TypeName = E.SchemaNameToTypeName refType)

/-- An entry made for a component parameter: the schema is what `paramToGoType` returns
for the parameter of that name, and the type name follows the parameter's own `Ref`. -/
def IsParameterEntry (E : Env X) (params : GoMap (ParameterRef X))
    (td : TypeDefinition X) : Prop :=
  ∃ paramOrRef goType, params.get td.JsonName = some paramOrRef ∧
    E.paramToGoType paramOrRef.Value = .ok goType ∧ td.Schema = goType ∧
    TypeNameFromSource E paramOrRef.Ref td

/-- An entry made for a component response: the schema is what `GenerateGoSchema` returns
for the JSON media type of the response of that name, and the type name follows the
response's own `Ref`. -/
def IsResponseEntry (E : Env X) (responses : GoMap (ResponseRef X))
    (td : TypeDefinition X) : Prop :=
  ∃ responseOrRef jsonResponse goType, responses.get td.JsonName = some responseOrRef ∧
    responseOrRef.Value.Content.get "application/json" = some jsonResponse ∧
    E.GenerateGoSchema jsonResponse.Schema [td.JsonName] = .ok goType ∧ td.Schema = goType ∧
    TypeNameFromSource E responseOrRef.Ref td

/-- An entry made for a component request body: the schema is what `GenerateGoSchema`
returns for the JSON media type of the body of that name, and the type name follows the
body's own `Ref`. -/
def IsRequestBodyEntry (E : Env X) (bodies : GoMap (RequestBodyRef X))
    (td : TypeDefinition X) : Prop :=
  ∃ bodyOrRef jsonBody goType, bodies.get td.JsonName = some bodyOrRef ∧
    bodyOrRef.Value.Content.get "application/json" = some jsonBody ∧
    E.GenerateGoSchema jsonBody.Schema [td.JsonName] = .ok goType ∧ td.Schema = goType ∧
    TypeNameFromSource E bodyOrRef.Ref td

end CodegenGo

/-! ## `cmd/go-codegen/go-codegen.go` -/

/-- The default of the `-generate` flag (go-codegen.go:43). -/
def flagGenerateDefault : String := "types,client,server,spec"

/-- The options the usage text of `-generate` names as valid (go-codegen.go:44). -/
def documentedTargets : List String :=
  ["types", "client", "chi-server", "server", "spec", "skip-fmt", "skip-prune"]

/-- Splits at every comma, like `strings.Split(input, ",")`. -/
def splitComma : List Char → List (List Char)
  | [] => [[]]
  | c :: cs =>
    if c = ',' then [] :: splitComma cs
    else
      match splitComma cs with
      | [] => [[c]]
      | w :: ws => (c :: w) :: ws

/-- White space as `unicode.IsSpace` defines it: tab, line feed, vertical tab, form feed,
carriage return, blank, U+0085, U+00A0, and the other characters with the Unicode
property White_Space. -/
def isSpace (c : Char) : Bool :=
  let v := c.toNat
  decide (v = 0x09 ∨ v = 0x0A ∨ v = 0x0B ∨ v = 0x0C ∨ v = 0x0D ∨ v = 0x20 ∨ v = 0x85 ∨
    v = 0xA0 ∨ v = 0x1680 ∨ (0x2000 ≤ v ∧ v ≤ 0x200A) ∨ v = 0x2028 ∨ v = 0x2029 ∨
    v = 0x202F ∨ v = 0x205F ∨ v = 0x3000)

/-- Removes leading and trailing white space, like `strings.TrimSpace`. -/
def trimSpace (cs : List Char) : List Char :=
  ((cs.dropWhile isSpace).reverse.dropWhile isSpace).reverse

/-- The function `util.ParseCommandLineList` of `github.com/deepmap/oapi-codegen/pkg/util`: the
comma-separated items of the input, trimmed, the empty ones dropped. -/
def ParseCommandLineList (input : String) : List String :=
  if trimSpace input.toList = [] then []
  else
    ((splitComma (trimSpace input.toList)).map trimSpace).filterMap
      (fun s => if s = [] then none else some (String.mk s))

/-- `configFromFlags` (go-codegen.go:101-114), the field `GenerateTargets`: the fresh
configuration has no targets, so they are parsed from the flag. -/
def configFromFlags.GenerateTargets (flagGenerate : String) : List String :=
  ParseCommandLineList flagGenerate

/-- A call of `os.Exit` with what was printed before it. -/
structure Exit where
  status : Nat
  printed : String
deriving DecidableEq

/-- The target loop of `main` (go-codegen.go:65-78): either the options after the loop, or
the exit taken in the `default` branch. -/
def main.targetLoop : List String → Options → Except Exit Options
  | [], opts => .ok opts
  | g :: rest, opts =>
    if g = "client" then main.targetLoop rest { opts with GenerateClient := true }
    else if g = "chi-server" then main.targetLoop rest { opts with GenerateChiServer := true }
    else if g = "types" then main.targetLoop rest { opts with GenerateTypes := true }
    else .error { status := 1, printed := "unknown generate option " ++ g ++ "\n" }

/-- The zero value of `Options`. -/
def Options.zero : Options :=
  { GenerateChiServer := false, GenerateClient := false, GenerateTypes := false,
    ExcludeSchemas := [] }

/-! ## Concrete collaborators and documents, for evaluating the definitions -/

/-- A small instance of the outside types: a schema is the list of its properties, each
flagged when it allows additional properties; the unread part of a `Schema` is the list
of names of the additional types minted for it; the path section lists, per operation,
the provider names of its security requirements. -/
def sampleExt : Ext where
  SchemaRef := List (String × Bool)
  Parameter := Unit
  SchemaRest := List String
  OperationRest := Unit
  Paths := List (List String)

/-- A template engine that prints the provider names, or the type names, in the order
of the context it is given. -/
def sampleTemplate : Template sampleExt where
  ExecuteTemplate := fun _ context =>
    match context with
    | .constants c => .ok (c.SecuritySchemeProviderNames.flatMap utf8)
    | .types l => .ok (l.flatMap (fun td => utf8 td.TypeName))

/-- Schema synthesis for `sampleExt`: a property that allows additional properties gets a
named type whose JSON name is the path joined by dots. -/
def sampleGenerateGoSchema (sref : Option (List (String × Bool))) (path : List String) :
    Except Error (Schema sampleExt) :=
  match sref with
  | none => .ok { HasAdditionalProperties := false, rest := [] }
  | some props =>
    .ok { HasAdditionalProperties := false
          rest := (props.filter (fun p => p.2)).map
            (fun p => ".".intercalate (path ++ [p.1])) }

/-- Collaborators that all succeed. -/
def sampleEnv : Env sampleExt where
  Parse := fun _ => .ok sampleTemplate
  OperationDefinitions := fun swagger =>
    .ok (swagger.Paths.map (fun names =>
      { SecurityDefinitions := names.map (fun n => { ProviderName := n, Scopes := [] })
        rest := () }))
  GenerateGoSchema := sampleGenerateGoSchema
  GetAdditionalTypeDefs := fun s =>
    s.rest.map (fun n =>
      { TypeName := n, JsonName := n
        Schema := { HasAdditionalProperties := true, rest := [] } })
  paramToGoType := fun _ => .ok { HasAdditionalProperties := false, rest := [] }
  RefPathToGoType := fun ref =>
    .ok (String.mk (ref.toList.reverse.takeWhile (fun c => c ≠ '/')).reverse)
  SchemaNameToTypeName := fun n => n
  SanitizeGoIdentity := fun n => n
  GenerateTypesForOperations := fun _ _ => .ok []
  GenerateChiServer := fun _ _ => .ok (utf8 "server;")
  GenerateClient := fun _ _ => .ok (utf8 "client;")
  GenerateClientWithResponses := fun _ _ => .ok (utf8 "responses;")
  importsProcess := fun _ src => .ok src
  mapRange := fun keys => keys

/-- The same collaborators, with a `range` that visits the keys in the opposite order. -/
def sampleEnvReversed : Env sampleExt := { sampleEnv with mapRange := List.reverse }

/-- A document with no components and two operations, secured by schemes `b` and `a`. -/
def twoProviders : Swagger sampleExt where
  Components := { Schemas := [], Parameters := [], Responses := [], RequestBodies := [] }
  Paths := [["b"], ["a"]]

/-- The operations of `twoProviders`. -/
def twoProvidersOps : List (OperationDefinition sampleExt) :=
  [{ SecurityDefinitions := [{ ProviderName := "b", Scopes := [] }], rest := () },
   { SecurityDefinitions := [{ ProviderName := "a", Scopes := [] }], rest := () }]

/-- Options requesting the types section only. -/
def typesOnly : Options :=
  { GenerateChiServer := false, GenerateClient := false, GenerateTypes := true,
    ExcludeSchemas := [] }

/-- Options requesting every section. -/
def allSections : Options :=
  { GenerateChiServer := true, GenerateClient := true, GenerateTypes := true,
    ExcludeSchemas := [] }

/-- Component responses: `ok` has JSON content, `blob` has only binary content. -/
def sampleResponses : GoMap (ResponseRef sampleExt) :=
  [("ok", { Ref := "", Value := { Content := [("application/json", { Schema := some [] })] } }),
   ("blob", { Ref := "", Value := { Content := [("application/octet-stream", { Schema := none })] } })]

/-- Component request bodies: `upload` has only binary content, `pet` has JSON content. -/
def sampleBodies : GoMap (RequestBodyRef sampleExt) :=
  [("upload",
    { Ref := "", Value := { Content := [("application/octet-stream", { Schema := none })] } }),
   ("pet", { Ref := "", Value := { Content := [("application/json", { Schema := some [] })] } })]

/-- Component schemas: `Foo` has a property `bar` that allows additional properties, and
`Foo.bar` is a schema of its own. -/
def dottedSchemas : GoMap sampleExt.SchemaRef :=
  [("Foo", [("bar", true)]), ("Foo.bar", [])]

/-- Component schemas `Pet` and `Tag`, without properties. -/
def petSchemas : GoMap sampleExt.SchemaRef := [("Pet", []), ("Tag", [])]

/-- Schema synthesis that fails on the schema named `Tag`. -/
def tagFails (sref : Option (List (String × Bool))) (path : List String) :
    Except Error (Schema sampleExt) :=
  if path = ["Tag"] then .error "unsupported" else sampleGenerateGoSchema sref path

/-- A document with a component schema `Foo`, a component parameter `Foo`, and a
component parameter `Bar` that is a reference to the parameter `Foo`. -/
def clashingNames : Swagger sampleExt where
  Components :=
    { Schemas := [("Foo", [])]
      Parameters :=
        [("Foo", { Ref := "", Value := some () }),
         ("Bar", { Ref := "#/components/parameters/Foo", Value := some () })]
      Responses := []
      RequestBodies := [] }
  Paths := []

/-- Collaborators whose operation extraction fails. -/
def sampleEnvNoOperations : Env sampleExt :=
  { sampleEnv with OperationDefinitions := fun _ => .error "no paths" }

/-- Collaborators whose client generator fails. -/
def sampleEnvNoClient : Env sampleExt :=
  { sampleEnv with GenerateClient := fun _ _ => .error "no client" }

/-- The six bytes EF BB EF BB BF BF: not valid UTF-8. -/
def nestedMark : Code := [0xEF, 0xBB, 0xEF, 0xBB, 0xBF, 0xBF]

/-! ## `SanitizeCode` -/

/-- The bytes of the literal. -/
theorem bomLiteral_eq : bomLiteral = [0xEF, 0xBB, 0xBF] := by decide

/-- A character is the mark exactly when its scalar value is FEFF. -/
theorem char_eq_BOM_iff (c : Char) : c = BOM ↔ c.toNat = 0xFEFF := by
  constructor
  · intro h
    subst h
    decide
  · intro h
    apply Char.ext
    apply UInt32.ext
    have hb : BOM.val.toNat = 0xFEFF := by decide
    rw [hb]
    exact h

/-- A byte other than EF starts no occurrence of the mark: the scan keeps it. -/
theorem scan_cons_of_ne (b : Nat) (rest : Code) (hb : b ≠ 0xEF) :
    Replace.scan bomLiteral [] 0 (b :: rest) = b :: Replace.scan bomLiteral [] 0 rest := by
  have hb2 : ¬ (239 = b) := fun h => hb h.symm
  rw [bomLiteral_eq]
  simp [Replace.scan, List.isPrefixOf, hb2]

/-- The scan over the encoding of one scalar value: the mark is dropped, any other value
is copied whole. -/
theorem scan_encodeRune (v : Nat) (tail : Code) :
    Replace.scan bomLiteral [] 0 (utf8EncodeRune v ++ tail) =
      if v = 0xFEFF then Replace.scan bomLiteral [] 0 tail
      else utf8EncodeRune v ++ Replace.scan bomLiteral [] 0 tail := by
  unfold utf8EncodeRune
  by_cases h1 : v ≤ 0x7F
  · have hne : v ≠ 0xFEFF := by omega
    simp only [h1, if_true, hne, if_false, List.cons_append, List.nil_append]
    exact scan_cons_of_ne _ _ (by omega)
  by_cases h2 : v ≤ 0x7FF
  · have hne : v ≠ 0xFEFF := by omega
    simp only [h1, h2, if_true, hne, if_false, List.cons_append, List.nil_append]
    rw [scan_cons_of_ne _ _ (by omega), scan_cons_of_ne _ _ (by omega)]
  by_cases h3 : v ≤ 0xFFFF
  · simp only [h1, h2, h3, if_true, if_false, List.cons_append, List.nil_append]
    by_cases hv : v = 0xFEFF
    · subst hv
      rw [bomLiteral_eq]
      simp [Replace.scan, List.isPrefixOf]
    · simp only [hv, if_false]
      have hpre : List.isPrefixOf bomLiteral
          ((0xE0 + v / 4096) :: (0x80 + v / 64 % 64) :: (0x80 + v % 64) :: tail) = false := by
        rw [bomLiteral_eq]
        simp only [List.isPrefixOf, Bool.and_true, Bool.and_eq_false_imp,
          beq_iff_eq, beq_eq_false_iff_ne, ne_eq]
        omega
      have hstep : Replace.scan bomLiteral [] 0
          ((0xE0 + v / 4096) :: (0x80 + v / 64 % 64) :: (0x80 + v % 64) :: tail) =
          (0xE0 + v / 4096) :: Replace.scan bomLiteral [] 0
            ((0x80 + v / 64 % 64) :: (0x80 + v % 64) :: tail) := by
        simp [Replace.scan, hpre]
      rw [hstep, scan_cons_of_ne _ _ (by omega), scan_cons_of_ne _ _ (by omega)]
  · have hne : v ≠ 0xFEFF := by omega
    simp only [h1, h2, h3, if_false, hne, List.cons_append, List.nil_append]
    rw [scan_cons_of_ne _ _ (by omega), scan_cons_of_ne _ _ (by omega),
      scan_cons_of_ne _ _ (by omega), scan_cons_of_ne _ _ (by omega)]

/-- The scan over the encoding of one character. -/
theorem scan_encodeChar (c : Char) (tail : Code) :
    Replace.scan bomLiteral [] 0 (utf8EncodeChar c ++ tail) =
      if c = BOM then Replace.scan bomLiteral [] 0 tail
      else utf8EncodeChar c ++ Replace.scan bomLiteral [] 0 tail := by
  unfold utf8EncodeChar
  rw [scan_encodeRune]
  by_cases hc : c = BOM
  · rw [if_pos hc, if_pos ((char_eq_BOM_iff c).mp hc)]
  · rw [if_neg hc, if_neg (fun h => hc ((char_eq_BOM_iff c).mpr h))]

/-- On valid UTF-8 the byte-level replacement deletes exactly the characters U+FEFF. -/
theorem SanitizeCode_utf8Chars (cs : List Char) :
    SanitizeCode (utf8Chars cs) = utf8Chars (cs.filter (fun c => decide (c ≠ BOM))) := by
  induction cs with
  | nil => rfl
  | cons c cs ih =>
    have hcons : utf8Chars (c :: cs) = utf8EncodeChar c ++ utf8Chars cs := by
      simp [utf8Chars]
    unfold SanitizeCode Replace at ih ⊢
    rw [hcons, scan_encodeChar, ih]
    by_cases hc : c = BOM
    · simp [hc]
    · simp [hc, utf8Chars]

/-- Replacing by the empty string never lengthens the text. -/
theorem scan_length_le (old new : Code) (hnew : new = []) :
    ∀ (s : Code) (k : Nat), (Replace.scan old new k s).length ≤ s.length := by
  intro s
  induction s with
  | nil => intro k; cases k <;> simp [Replace.scan]
  | cons b rest ih =>
    intro k
    cases k with
    | succ k =>
      simp only [Replace.scan, List.length_cons]
      exact Nat.le_succ_of_le (ih k)
    | zero =>
      simp only [Replace.scan]
      split
      · subst hnew
        simp only [List.nil_append, List.length_cons]
        exact Nat.le_succ_of_le (ih _)
      · simp only [List.length_cons]
        exact Nat.succ_le_succ (ih 0)

/-- A string containing the three bytes of the mark is changed by `SanitizeCode`: the
result is strictly shorter. -/
theorem SanitizeCode_length_lt (s : Code) (h : bomLiteral <:+: s) :
    (SanitizeCode s).length < s.length := by
  unfold SanitizeCode Replace
  induction s with
  | nil =>
    rw [bomLiteral_eq] at h
    simp at h
  | cons b rest ih =>
    simp only [Replace.scan]
    split
    · simp only [List.nil_append, List.length_cons]
      exact Nat.lt_succ_of_le (scan_length_le _ _ rfl _ _)
    · rename_i hpre
      rcases List.infix_cons_iff.mp h with hp | hi
      · exact absurd (List.isPrefixOf_iff_prefix.mpr hp) hpre
      · simp only [List.length_cons]
        exact Nat.succ_lt_succ (ih hi)

/-- C9, counterexample: on the byte string EF BB EF BB BF BF the single pass of
`strings.Replace` removes the inner occurrence and leaves the bytes EF BB BF, the
encoding of U+FEFF; the result contains the mark and a second pass changes it. -/
theorem SanitizeCode_bytes_counterexample :
    SanitizeCode nestedMark = utf8Chars [BOM] ∧
    bomLiteral <:+: SanitizeCode nestedMark ∧
    SanitizeCode (SanitizeCode nestedMark) ≠ SanitizeCode nestedMark := by
  have h : SanitizeCode nestedMark = bomLiteral := by decide
  refine ⟨h, ?_, ?_⟩
  · rw [h]
  · rw [h]
    decide

/-- An occurrence of the mark at the head is passed over. -/
theorem scan_bom_append (t : Code) :
    Replace.scan bomLiteral [] 0 (bomLiteral ++ t) = Replace.scan bomLiteral [] 0 t := by
  rw [bomLiteral_eq]
  simp [Replace.scan, List.isPrefixOf]

/-- A byte that starts no occurrence of the mark is kept. -/
theorem scan_cons_of_no_mark_head (b : Nat) (rest : Code) (h : ¬ bomLiteral <+: b :: rest) :
    Replace.scan bomLiteral [] 0 (b :: rest) = b :: Replace.scan bomLiteral [] 0 rest := by
  have hp : List.isPrefixOf bomLiteral (b :: rest) = false := by
    rw [Bool.eq_false_iff]
    intro hp
    exact h (List.isPrefixOf_iff_prefix.mp hp)
  simp [Replace.scan, hp]

/-- A byte string without the three bytes of the mark is returned unchanged. -/
theorem SanitizeCode_of_no_mark (s : Code) (h : ¬ bomLiteral <:+: s) :
    SanitizeCode s = s := by
  unfold SanitizeCode Replace
  induction s with
  | nil => rfl
  | cons b rest ih =>
    rw [scan_cons_of_no_mark_head b rest (fun hp => h hp.isInfix)]
    rw [ih (fun hi => h (List.infix_cons hi))]

/-- The first of the pieces joined by a separator is a prefix of the whole. -/
theorem prefix_intercalate (sep p : Code) (ps : List Code) :
    p <+: sep.intercalate (p :: ps) := by
  cases ps with
  | nil => simp [List.intercalate, List.intersperse]
  | cons q qs =>
    have h : sep.intercalate (p :: q :: qs) = p ++ (sep ++ sep.intercalate (q :: qs)) := by
      simp [List.intercalate, List.intersperse]
    rw [h]
    exact List.prefix_append _ _

/-- Every byte string splits at its occurrences of the mark into pieces free of the
mark, and `SanitizeCode` returns the pieces joined without the marks. -/
theorem SanitizeCode_pieces :
    ∀ (n : Nat) (s : Code), s.length ≤ n →
      ∃ pieces : List Code, pieces ≠ [] ∧ s = bomLiteral.intercalate pieces ∧
        (∀ p ∈ pieces, ¬ bomLiteral <:+: p) ∧ SanitizeCode s = pieces.flatten := by
  intro n
  induction n with
  | zero =>
    intro s hs
    have h0 : s = [] := List.length_eq_zero.mp (Nat.le_zero.mp hs)
    subst h0
    refine ⟨[[]], by simp, by simp [List.intercalate, List.intersperse], ?_, by decide⟩
    intro p hp
    rw [List.mem_singleton] at hp
    subst hp
    rw [bomLiteral_eq]
    simp
  | succ n ih =>
    intro s hs
    cases s with
    | nil =>
      refine ⟨[[]], by simp, by simp [List.intercalate, List.intersperse], ?_, by decide⟩
      intro p hp
      rw [List.mem_singleton] at hp
      subst hp
      rw [bomLiteral_eq]
      simp
    | cons b rest =>
      by_cases hpre : bomLiteral <+: b :: rest
      · obtain ⟨t, ht⟩ := hpre
        have hlen : t.length ≤ n := by
          have := congrArg List.length ht
          rw [List.length_append, bomLiteral_eq] at this
          simp only [List.length_cons, List.length_nil] at this hs
          omega
        obtain ⟨pieces, hne, hs1, hfree, hres⟩ := ih t hlen
        cases pieces with
        | nil => exact absurd rfl hne
        | cons p ps =>
          refine ⟨[] :: p :: ps, by simp, ?_, ?_, ?_⟩
          · rw [← ht, hs1]
            simp [List.intercalate, List.intersperse]
          · intro q hq
            rcases List.mem_cons.mp hq with h1 | h1
            · subst h1
              rw [bomLiteral_eq]
              simp
            · exact hfree q h1
          · have hscan : SanitizeCode (b :: rest) = SanitizeCode t := by
              unfold SanitizeCode Replace
              rw [← ht, scan_bom_append]
            rw [hscan, hres]
            simp
      · have hlen : rest.length ≤ n := by
          simp only [List.length_cons] at hs
          omega
        obtain ⟨pieces, hne, hs1, hfree, hres⟩ := ih rest hlen
        cases pieces with
        | nil => exact absurd rfl hne
        | cons p ps =>
          refine ⟨(b :: p) :: ps, by simp, ?_, ?_, ?_⟩
          · rw [hs1]
            cases ps with
            | nil => simp [List.intercalate, List.intersperse]
            | cons q qs => simp [List.intercalate, List.intersperse]
          · intro q hq
            rcases List.mem_cons.mp hq with h1 | h1
            · subst h1
              intro hinf
              rcases List.infix_cons_iff.mp hinf with h2 | h2
              · apply hpre
                refine h2.trans ?_
                rw [hs1]
                exact (List.prefix_cons_inj b).mpr (prefix_intercalate _ p ps)
              · exact hfree p (List.mem_cons_self _ _) h2
            · exact hfree q (List.mem_cons_of_mem _ h1)
          · have hscan : SanitizeCode (b :: rest) = b :: SanitizeCode rest := by
              unfold SanitizeCode Replace
              exact scan_cons_of_no_mark_head b rest hpre
            rw [hscan, hres]
            simp

/-- The encoding of a character sequence holding U+FEFF holds the three bytes. -/
theorem infix_of_mem_BOM (cs : List Char) (h : BOM ∈ cs) : bomLiteral <:+: utf8Chars cs := by
  obtain ⟨l, r, hlr⟩ := List.append_of_mem h
  subst hlr
  refine ⟨utf8Chars l, utf8Chars r, ?_⟩
  simp [utf8Chars, bomLiteral]

/-- C9, amended: for every string `s`, `SanitizeCode(s)` is `s` with every occurrence of
U+FEFF (the bytes EF BB BF) deleted and all other bytes kept in their original order,
and `SanitizeCode(s) = s` when `s` contains no U+FEFF. When `s` is valid UTF-8, that is
the encoding of a sequence of characters, the result is moreover the encoding of the
same sequence with every U+FEFF character deleted, it contains no occurrence of U+FEFF,
and `SanitizeCode(SanitizeCode(s)) = SanitizeCode(s)`. -/
theorem SanitizeCode_removes_marks (s : Code) (cs : List Char) :
    (∃ pieces : List Code, s = bomLiteral.intercalate pieces ∧
      (∀ p ∈ pieces, ¬ bomLiteral <:+: p) ∧ SanitizeCode s = pieces.flatten) ∧
    (¬ bomLiteral <:+: s → SanitizeCode s = s) ∧
    SanitizeCode (utf8Chars cs) = utf8Chars (cs.filter (fun c => decide (c ≠ BOM))) ∧
    BOM ∉ cs.filter (fun c => decide (c ≠ BOM)) ∧
    ¬ bomLiteral <:+: SanitizeCode (utf8Chars cs) ∧
    (BOM ∈ cs ↔ bomLiteral <:+: utf8Chars cs) ∧
    (BOM ∉ cs → SanitizeCode (utf8Chars cs) = utf8Chars cs) ∧
    SanitizeCode (SanitizeCode (utf8Chars cs)) = SanitizeCode (utf8Chars cs) := by
  have hfilter : BOM ∉ cs.filter (fun c => decide (c ≠ BOM)) := by
    simp [List.mem_filter]
  have hid : ∀ ds : List Char, BOM ∉ ds → SanitizeCode (utf8Chars ds) = utf8Chars ds := by
    intro ds hds
    rw [SanitizeCode_utf8Chars]
    congr 1
    rw [List.filter_eq_self]
    intro c hc
    simp only [ne_eq, decide_eq_true_eq]
    intro hcb
    exact hds (hcb ▸ hc)
  have hidem : SanitizeCode (SanitizeCode (utf8Chars cs)) = SanitizeCode (utf8Chars cs) := by
    rw [SanitizeCode_utf8Chars cs]
    exact hid _ hfilter
  have hnone : ∀ ds : List Char, BOM ∉ ds → ¬ bomLiteral <:+: utf8Chars ds := by
    intro ds hds hinfix
    have hlt := SanitizeCode_length_lt _ hinfix
    rw [hid ds hds] at hlt
    exact Nat.lt_irrefl _ hlt
  obtain ⟨pieces, _, hp1, hp2, hp3⟩ := SanitizeCode_pieces s.length s (Nat.le_refl _)
  refine ⟨⟨pieces, hp1, hp2, hp3⟩, SanitizeCode_of_no_mark s, SanitizeCode_utf8Chars cs, hfilter,
    ?_, ⟨infix_of_mem_BOM cs, ?_⟩, hid cs, hidem⟩
  · rw [SanitizeCode_utf8Chars cs]
    exact hnone _ hfilter
  · intro hinfix
    by_contra hmem
    exact hnone cs hmem hinfix

/-- The valid string `a`, U+FEFF, `b` becomes `ab`; the bytes EF BB 41, not valid UTF-8
and without the mark, are returned unchanged. -/
theorem SanitizeCode_removes_marks_witness :
    SanitizeCode (utf8Chars ['a', BOM, 'b']) = utf8Chars ['a', 'b'] ∧
    bomLiteral <:+: utf8Chars ['a', BOM, 'b'] ∧
    ¬ bomLiteral <:+: SanitizeCode (utf8Chars ['a', BOM, 'b']) ∧
    SanitizeCode [0xEF, 0xBB, 0x41] = [0xEF, 0xBB, 0x41] :=
  ⟨(SanitizeCode_removes_marks [] ['a', BOM, 'b']).2.2.1.trans (by decide),
    (SanitizeCode_removes_marks [] ['a', BOM, 'b']).2.2.2.2.2.1.mp (by decide),
    (SanitizeCode_removes_marks [] ['a', BOM, 'b']).2.2.2.2.1,
    (SanitizeCode_removes_marks [0xEF, 0xBB, 0x41] []).2.1 (by
      rw [bomLiteral_eq]
      decide)⟩

/-! ## `GenerateAdditionalPropertyBoilerplate` -/

section Theorems

variable {X : Ext}

/-- The loop of codegen.go:402-406 from any start value: it appends the flagged
entries. -/
theorem filteredTypes_foldl (typeDefs acc : List (TypeDefinition X)) :
    typeDefs.foldl
      (fun filteredTypes t =>
        if t.Schema.HasAdditionalProperties then filteredTypes ++ [t] else filteredTypes)
      acc = acc ++ typeDefs.filter (fun t => t.Schema.HasAdditionalProperties) := by
  induction typeDefs generalizing acc with
  | nil => simp
  | cons t ts ih =>
    simp only [List.foldl_cons, ih, List.filter_cons]
    by_cases h : t.Schema.HasAdditionalProperties = true
    · simp [h]
    · simp [h]

/-- C6: the context `GenerateAdditionalPropertyBoilerplate` passes to the
additional-properties template is the list of the type definitions whose schema has
`HasAdditionalProperties` set, in their original order: it is the filter of `typeDefs`
by the flag, a sub-list of `typeDefs`, every flagged definition occurs in it as often as
in `typeDefs`, and a definition without the flag does not occur. -/
theorem additionalPropertyBoilerplate_context (t : Template X)
    (typeDefs : List (TypeDefinition X)) :
    GenerateAdditionalPropertyBoilerplate.filteredTypes typeDefs =
      typeDefs.filter (fun td => td.Schema.HasAdditionalProperties) ∧
    GenerateAdditionalPropertyBoilerplate t typeDefs =
      (match t.ExecuteTemplate "additional-properties.tmpl"
          (.types (typeDefs.filter (fun td => td.Schema.HasAdditionalProperties))) with
        | .error err => .error (Wrap err "error generating additional properties code")
        | .ok out => .ok out) ∧
    (GenerateAdditionalPropertyBoilerplate.filteredTypes typeDefs).Sublist typeDefs ∧
    (∀ td, td ∈ GenerateAdditionalPropertyBoilerplate.filteredTypes typeDefs ↔
      td ∈ typeDefs ∧ td.Schema.HasAdditionalProperties = true) ∧
    (∀ p : TypeDefinition X → Bool,
      (GenerateAdditionalPropertyBoilerplate.filteredTypes typeDefs).countP
          (fun td => p td && td.Schema.HasAdditionalProperties) =
        typeDefs.countP (fun td => p td && td.Schema.HasAdditionalProperties)) := by
  have h : GenerateAdditionalPropertyBoilerplate.filteredTypes typeDefs =
      typeDefs.filter (fun td => td.Schema.HasAdditionalProperties) := by
    unfold GenerateAdditionalPropertyBoilerplate.filteredTypes
    rw [filteredTypes_foldl]
    rfl
  refine ⟨h, ?_, ?_, ?_, ?_⟩
  · unfold GenerateAdditionalPropertyBoilerplate
    rw [h]
  · rw [h]
    exact List.filter_sublist _
  · intro td
    rw [h, List.mem_filter]
  · intro p
    rw [h, List.countP_filter]
    congr 1
    funext td
    cases p td <;> cases td.Schema.HasAdditionalProperties <;> rfl

/-! ## Maps and sorted keys -/

/-- The sorted keys are a rearrangement of the key set. -/
theorem SortedKeys_perm {α : Type} (m : GoMap α) : (SortedKeys m).Perm m.keys :=
  List.perm_insertionSort _ _

/-- The sorted keys are pairwise distinct. -/
theorem SortedKeys_nodup {α : Type} (m : GoMap α) : (SortedKeys m).Nodup :=
  (SortedKeys_perm m).nodup_iff.mpr (List.nodup_dedup _)

/-- The sorted keys are the keys of the map. -/
theorem mem_SortedKeys {α : Type} (m : GoMap α) (k : String) :
    k ∈ SortedKeys m ↔ k ∈ m.map Prod.fst := by
  rw [(SortedKeys_perm m).mem_iff]
  exact List.mem_dedup

/-- Indexing a map at one of its keys finds an entry. -/
theorem get_of_mem_keys {α : Type} (m : GoMap α) (k : String) (h : k ∈ m.map Prod.fst) :
    ∃ v, m.get k = some v := by
  induction m with
  | nil => simp at h
  | cons p m ih =>
    obtain ⟨a, b⟩ := p
    by_cases hk : k = a
    · subst hk
      exact ⟨b, by simp [GoMap.get, List.lookup]⟩
    · have hm : k ∈ m.map Prod.fst := by
        simp only [List.map_cons, List.mem_cons] at h
        rcases h with h | h
        · exact absurd h hk
        · exact h
      obtain ⟨v, hv⟩ := ih hm
      refine ⟨v, ?_⟩
      have hbeq : (k == a) = false := by simpa using hk
      simp only [GoMap.get, List.lookup, hbeq] at hv ⊢
      exact hv

/-- Indexing a map at one of its sorted keys finds an entry. -/
theorem get_of_mem_SortedKeys {α : Type} (m : GoMap α) (k : String)
    (h : k ∈ SortedKeys m) : ∃ v, m.get k = some v :=
  get_of_mem_keys m k ((mem_SortedKeys m k).mp h)

/-! ## The collectors of component types -/

/-- The loop over component responses: what it appends when it succeeds. -/
theorem responses_loop_spec (E : Env X) (responses : GoMap (ResponseRef X)) :
    ∀ (keys : List String) (acc types : List (TypeDefinition X)),
      GenerateTypesForResponses.loop E responses keys acc = .ok types →
      ∃ added, types = acc ++ added ∧
        added.map (fun td => td.JsonName) = keys.filter (ResponseHasJSON responses) ∧
        ∀ td ∈ added, IsResponseEntry E responses td := by
  intro keys
  induction keys with
  | nil =>
    intro acc types h
    simp only [GenerateTypesForResponses.loop, Except.ok.injEq] at h
    exact ⟨[], by simp [h], by simp, by simp⟩
  | cons k keys ih =>
    intro acc types h
    unfold GenerateTypesForResponses.loop at h
    split at h
    · exact absurd h (by simp)
    · rename_i r hr
      split at h
      · rename_i hc
        obtain ⟨added, h1, h2, h3⟩ := ih _ _ h
        refine ⟨added, h1, ?_, h3⟩
        simp [List.filter_cons, ResponseHasJSON, hr, hc, h2]
      · rename_i j hc
        have hk : ResponseHasJSON responses k = true := by
          simp [ResponseHasJSON, hr, hc]
        split at h
        · exact absurd h (by simp)
        · rename_i goType hg
          split at h
          · rename_i href
            split at h
            · exact absurd h (by simp)
            · rename_i refType hrt
              obtain ⟨added, h1, h2, h3⟩ := ih _ _ h
              refine ⟨{ JsonName := k, Schema := goType
                        TypeName := E.SchemaNameToTypeName refType } :: added,
                by simp [h1], by simp [List.filter_cons, hk, h2], ?_⟩
              intro td htd
              rcases List.mem_cons.mp htd with heq | hmem
              · subst heq
                exact ⟨r, j, goType, hr, hc, hg, rfl, Or.inr ⟨href, refType, hrt, rfl⟩⟩
              · exact h3 td hmem
          · rename_i href
            obtain ⟨added, h1, h2, h3⟩ := ih _ _ h
            refine ⟨{ JsonName := k, Schema := goType
                      TypeName := E.SchemaNameToTypeName k } :: added,
              by simp [h1], by simp [List.filter_cons, hk, h2], ?_⟩
            intro td htd
            rcases List.mem_cons.mp htd with heq | hmem
            · subst heq
              exact ⟨r, j, goType, hr, hc, hg, rfl, Or.inl ⟨not_not.mp href, rfl⟩⟩
            · exact h3 td hmem

/-- The loop over component responses succeeds when synthesis succeeds on the JSON
media types; entries without JSON content are passed over. -/
theorem responses_loop_ok (E : Env X) (responses : GoMap (ResponseRef X)) :
    ∀ (keys : List String) (acc : List (TypeDefinition X)),
      (∀ k ∈ keys, ∃ r, responses.get k = some r ∧
        ∀ j, r.Value.Content.get "application/json" = some j →
          (∃ s, E.GenerateGoSchema j.Schema [k] = .ok s) ∧
          (r.Ref ≠ "" → ∃ n, E.RefPathToGoType r.Ref = .ok n)) →
      ∃ types, GenerateTypesForResponses.loop E responses keys acc = .ok types := by
  intro keys
  induction keys with
  | nil =>
    intro acc _
    exact ⟨acc, rfl⟩
  | cons k keys ih =>
    intro acc h
    obtain ⟨r, hr, hj⟩ := h k (List.mem_cons_self _ _)
    have hrest := fun acc2 => ih acc2 (fun k2 hk2 => h k2 (List.mem_cons_of_mem _ hk2))
    unfold GenerateTypesForResponses.loop
    simp only [hr]
    cases hc : r.Value.Content.get "application/json" with
    | none => exact hrest _
    | some j =>
      obtain ⟨⟨s, hs⟩, href⟩ := hj j hc
      simp only [hs]
      by_cases hne : r.Ref ≠ ""
      · obtain ⟨n, hn⟩ := href hne
        rw [if_pos hne]
        simp only [hn]
        exact hrest _
      · rw [if_neg hne]
        exact hrest _

/-- The loop over component request bodies: what it appends when it succeeds. -/
theorem bodies_loop_spec (E : Env X) (bodies : GoMap (RequestBodyRef X)) :
    ∀ (keys : List String) (acc types : List (TypeDefinition X)),
      GenerateTypesForRequestBodies.loop E bodies keys acc = .ok types →
      ∃ added, types = acc ++ added ∧
        added.map (fun td => td.JsonName) = keys.filter (RequestBodyHasJSON bodies) ∧
        ∀ td ∈ added, IsRequestBodyEntry E bodies td := by
  intro keys
  induction keys with
  | nil =>
    intro acc types h
    simp only [GenerateTypesForRequestBodies.loop, Except.ok.injEq] at h
    exact ⟨[], by simp [h], by simp, by simp⟩
  | cons k keys ih =>
    intro acc types h
    unfold GenerateTypesForRequestBodies.loop at h
    split at h
    · exact absurd h (by simp)
    · rename_i r hr
      split at h
      · rename_i hc
        obtain ⟨added, h1, h2, h3⟩ := ih _ _ h
        refine ⟨added, h1, ?_, h3⟩
        simp [List.filter_cons, RequestBodyHasJSON, hr, hc, h2]
      · rename_i j hc
        have hk : RequestBodyHasJSON bodies k = true := by
          simp [RequestBodyHasJSON, hr, hc]
        split at h
        · exact absurd h (by simp)
        · rename_i goType hg
          split at h
          · rename_i href
            split at h
            · exact absurd h (by simp)
            · rename_i refType hrt
              obtain ⟨added, h1, h2, h3⟩ := ih _ _ h
              refine ⟨{ JsonName := k, Schema := goType
                        TypeName := E.SchemaNameToTypeName refType } :: added,
                by simp [h1], by simp [List.filter_cons, hk, h2], ?_⟩
              intro td htd
              rcases List.mem_cons.mp htd with heq | hmem
              · subst heq
                exact ⟨r, j, goType, hr, hc, hg, rfl, Or.inr ⟨href, refType, hrt, rfl⟩⟩
              · exact h3 td hmem
          · rename_i href
            obtain ⟨added, h1, h2, h3⟩ := ih _ _ h
            refine ⟨{ JsonName := k, Schema := goType
                      TypeName := E.SchemaNameToTypeName k } :: added,
              by simp [h1], by simp [List.filter_cons, hk, h2], ?_⟩
            intro td htd
            rcases List.mem_cons.mp htd with heq | hmem
            · subst heq
              exact ⟨r, j, goType, hr, hc, hg, rfl, Or.inl ⟨not_not.mp href, rfl⟩⟩
            · exact h3 td hmem

/-- The loop over component request bodies succeeds when synthesis succeeds on the JSON
media types; entries without JSON content are passed over. -/
theorem bodies_loop_ok (E : Env X) (bodies : GoMap (RequestBodyRef X)) :
    ∀ (keys : List String) (acc : List (TypeDefinition X)),
      (∀ k ∈ keys, ∃ r, bodies.get k = some r ∧
        ∀ j, r.Value.Content.get "application/json" = some j →
          (∃ s, E.GenerateGoSchema j.Schema [k] = .ok s) ∧
          (r.Ref ≠ "" → ∃ n, E.RefPathToGoType r.Ref = .ok n)) →
      ∃ types, GenerateTypesForRequestBodies.loop E bodies keys acc = .ok types := by
  intro keys
  induction keys with
  | nil =>
    intro acc _
    exact ⟨acc, rfl⟩
  | cons k keys ih =>
    intro acc h
    obtain ⟨r, hr, hj⟩ := h k (List.mem_cons_self _ _)
    have hrest := fun acc2 => ih acc2 (fun k2 hk2 => h k2 (List.mem_cons_of_mem _ hk2))
    unfold GenerateTypesForRequestBodies.loop
    simp only [hr]
    cases hc : r.Value.Content.get "application/json" with
    | none => exact hrest _
    | some j =>
      obtain ⟨⟨s, hs⟩, href⟩ := hj j hc
      simp only [hs]
      by_cases hne : r.Ref ≠ ""
      · obtain ⟨n, hn⟩ := href hne
        rw [if_pos hne]
        simp only [hn]
        exact hrest _
      · rw [if_neg hne]
        exact hrest _

/-- The loop over component parameters: what it appends when it succeeds. -/
theorem parameters_loop_spec (E : Env X) (params : GoMap (ParameterRef X)) :
    ∀ (keys : List String) (acc types : List (TypeDefinition X)),
      GenerateTypesForParameters.loop E params keys acc = .ok types →
      ∃ added, types = acc ++ added ∧
        added.map (fun td => td.JsonName) = keys ∧
        ∀ td ∈ added, IsParameterEntry E params td := by
  intro keys
  induction keys with
  | nil =>
    intro acc types h
    simp only [GenerateTypesForParameters.loop, Except.ok.injEq] at h
    exact ⟨[], by simp [h], by simp, by simp⟩
  | cons k keys ih =>
    intro acc types h
    unfold GenerateTypesForParameters.loop at h
    split at h
    · exact absurd h (by simp)
    · rename_i r hr
      split at h
      · exact absurd h (by simp)
      · rename_i goType hg
        split at h
        · rename_i href
          split at h
          · exact absurd h (by simp)
          · rename_i refType hrt
            obtain ⟨added, h1, h2, h3⟩ := ih _ _ h
            refine ⟨{ JsonName := k, Schema := goType
                      TypeName := E.SchemaNameToTypeName refType } :: added,
              by simp [h1], by simp [h2], ?_⟩
            intro td htd
            rcases List.mem_cons.mp htd with heq | hmem
            · subst heq
              exact ⟨r, goType, hr, hg, rfl, Or.inr ⟨href, refType, hrt, rfl⟩⟩
            · exact h3 td hmem
        · rename_i href
          obtain ⟨added, h1, h2, h3⟩ := ih _ _ h
          refine ⟨{ JsonName := k, Schema := goType
                    TypeName := E.SchemaNameToTypeName k } :: added,
            by simp [h1], by simp [h2], ?_⟩
          intro td htd
          rcases List.mem_cons.mp htd with heq | hmem
          · subst heq
            exact ⟨r, goType, hr, hg, rfl, Or.inl ⟨not_not.mp href, rfl⟩⟩
          · exact h3 td hmem

/-- The loop over component schemas: what it appends when it succeeds. Every entry
comes from a key that is not excluded, as the entry of the schema or as one of its
additional type definitions, and every such key has its entry. -/
theorem schemas_loop_spec (E : Env X) (schemas : GoMap X.SchemaRef) (ex : List String) :
    ∀ (keys : List String) (acc types : List (TypeDefinition X)),
      GenerateTypesForSchemas.loop E schemas ex keys acc = .ok types →
      ∃ added, types = acc ++ added ∧
        (∀ td ∈ added, ∃ name ∈ keys, name ∉ ex ∧
          ∃ s, E.GenerateGoSchema (schemas.get name) [name] = .ok s ∧
            (td = { JsonName := name, TypeName := E.SchemaNameToTypeName name, Schema := s } ∨
              td ∈ E.GetAdditionalTypeDefs s)) ∧
        (∀ name ∈ keys, name ∉ ex →
          ∃ s, E.GenerateGoSchema (schemas.get name) [name] = .ok s ∧
            ({ JsonName := name, TypeName := E.SchemaNameToTypeName name, Schema := s } :
              TypeDefinition X) ∈ added) := by
  intro keys
  induction keys with
  | nil =>
    intro acc types h
    simp only [GenerateTypesForSchemas.loop, Except.ok.injEq] at h
    exact ⟨[], by simp [h], by simp, by simp⟩
  | cons k keys ih =>
    intro acc types h
    unfold GenerateTypesForSchemas.loop at h
    split at h
    · rename_i hk
      obtain ⟨added, h1, h2, h3⟩ := ih _ _ h
      refine ⟨added, h1, ?_, ?_⟩
      · intro td htd
        obtain ⟨name, hn, hrest⟩ := h2 td htd
        exact ⟨name, List.mem_cons_of_mem _ hn, hrest⟩
      · intro name hn hne
        rcases List.mem_cons.mp hn with heq | hmem
        · exact absurd (heq ▸ hk) hne
        · exact h3 name hmem hne
    · rename_i hk
      split at h
      · exact absurd h (by simp)
      · rename_i goSchema hg
        obtain ⟨added, h1, h2, h3⟩ := ih _ _ h
        refine ⟨{ JsonName := k, TypeName := E.SchemaNameToTypeName k, Schema := goSchema } ::
          (E.GetAdditionalTypeDefs goSchema ++ added), by simp [h1], ?_, ?_⟩
        · intro td htd
          rcases List.mem_cons.mp htd with heq | hmem
          · exact ⟨k, List.mem_cons_self _ _, hk, goSchema, hg, Or.inl heq⟩
          · rcases List.mem_append.mp hmem with hadd | hold
            · exact ⟨k, List.mem_cons_self _ _, hk, goSchema, hg, Or.inr hadd⟩
            · obtain ⟨name, hn, hrest⟩ := h2 td hold
              exact ⟨name, List.mem_cons_of_mem _ hn, hrest⟩
        · intro name hn hne
          rcases List.mem_cons.mp hn with heq | hmem
          · subst heq
            exact ⟨goSchema, hg, List.mem_cons_self _ _⟩
          · obtain ⟨s, hs, hmem2⟩ := h3 name hmem hne
            exact ⟨s, hs, List.mem_cons_of_mem _ (List.mem_append_right _ hmem2)⟩

/-- The loop over component schemas consults schema synthesis only at keys that are not
excluded. -/
theorem schemas_loop_congr (E : Env X) (schemas : GoMap X.SchemaRef) (ex : List String)
    (g : Option X.SchemaRef → List String → Except Error (Schema X)) :
    ∀ (keys : List String) (acc : List (TypeDefinition X)),
      (∀ name ∈ keys, name ∉ ex →
        g (schemas.get name) [name] = E.GenerateGoSchema (schemas.get name) [name]) →
      GenerateTypesForSchemas.loop { E with GenerateGoSchema := g } schemas ex keys acc =
        GenerateTypesForSchemas.loop E schemas ex keys acc := by
  intro keys
  induction keys with
  | nil => intro acc _; rfl
  | cons k keys ih =>
    intro acc h
    have hrest := fun acc2 => ih acc2 (fun n hn => h n (List.mem_cons_of_mem _ hn))
    unfold GenerateTypesForSchemas.loop
    by_cases hk : k ∈ ex
    · rw [if_pos hk, if_pos hk]
      exact hrest _
    · rw [if_neg hk, if_neg hk]
      simp only [h k (List.mem_cons_self _ _) hk]
      cases E.GenerateGoSchema (schemas.get k) [k] with
      | error err => rfl
      | ok goSchema => exact hrest _

/-- C7: when `GenerateTypesForResponses` succeeds, the JSON names of the returned
definitions are the keys of `SortedResponsesKeys` that have an `application/json` entry,
in that order, each once, and no others; the call succeeds as soon as synthesis succeeds
on the JSON entries, whatever the other responses hold, and with no JSON entry at all it
returns the empty list. The same holds for `GenerateTypesForRequestBodies`. -/
theorem component_types_json_only (E : Env X) (t : Template X)
    (responses : GoMap (ResponseRef X)) (bodies : GoMap (RequestBodyRef X)) :
    ((∀ types, GenerateTypesForResponses E t responses = .ok types →
        types.map (fun td => td.JsonName) =
          (SortedKeys responses).filter (ResponseHasJSON responses)) ∧
      (SortedKeys responses).Nodup ∧
      ((∀ k r j, responses.get k = some r →
          r.Value.Content.get "application/json" = some j →
          (∃ s, E.GenerateGoSchema j.Schema [k] = .ok s) ∧
          (r.Ref ≠ "" → ∃ n, E.RefPathToGoType r.Ref = .ok n)) →
        ∃ types, GenerateTypesForResponses E t responses = .ok types) ∧
      ((∀ k, ResponseHasJSON responses k = false) →
        GenerateTypesForResponses E t responses = .ok [])) ∧
    ((∀ types, GenerateTypesForRequestBodies E t bodies = .ok types →
        types.map (fun td => td.JsonName) =
          (SortedKeys bodies).filter (RequestBodyHasJSON bodies)) ∧
      (SortedKeys bodies).Nodup ∧
      ((∀ k r j, bodies.get k = some r →
          r.Value.Content.get "application/json" = some j →
          (∃ s, E.GenerateGoSchema j.Schema [k] = .ok s) ∧
          (r.Ref ≠ "" → ∃ n, E.RefPathToGoType r.Ref = .ok n)) →
        ∃ types, GenerateTypesForRequestBodies E t bodies = .ok types) ∧
      ((∀ k, RequestBodyHasJSON bodies k = false) →
        GenerateTypesForRequestBodies E t bodies = .ok [])) := by
  have hR1 : ∀ types, GenerateTypesForResponses E t responses = .ok types →
      types.map (fun td => td.JsonName) =
        (SortedKeys responses).filter (ResponseHasJSON responses) := by
    intro types h
    obtain ⟨added, h1, h2, _⟩ := responses_loop_spec E responses _ _ _ h
    rw [h1, List.nil_append, h2]
  have hR2 : (∀ k r j, responses.get k = some r →
        r.Value.Content.get "application/json" = some j →
        (∃ s, E.GenerateGoSchema j.Schema [k] = .ok s) ∧
        (r.Ref ≠ "" → ∃ n, E.RefPathToGoType r.Ref = .ok n)) →
      ∃ types, GenerateTypesForResponses E t responses = .ok types := by
    intro h
    apply responses_loop_ok
    intro k hk
    obtain ⟨r, hr⟩ := get_of_mem_SortedKeys responses k hk
    exact ⟨r, hr, fun j hj => h k r j hr hj⟩
  have hB1 : ∀ types, GenerateTypesForRequestBodies E t bodies = .ok types →
      types.map (fun td => td.JsonName) =
        (SortedKeys bodies).filter (RequestBodyHasJSON bodies) := by
    intro types h
    obtain ⟨added, h1, h2, _⟩ := bodies_loop_spec E bodies _ _ _ h
    rw [h1, List.nil_append, h2]
  have hB2 : (∀ k r j, bodies.get k = some r →
        r.Value.Content.get "application/json" = some j →
        (∃ s, E.GenerateGoSchema j.Schema [k] = .ok s) ∧
        (r.Ref ≠ "" → ∃ n, E.RefPathToGoType r.Ref = .ok n)) →
      ∃ types, GenerateTypesForRequestBodies E t bodies = .ok types := by
    intro h
    apply bodies_loop_ok
    intro k hk
    obtain ⟨r, hr⟩ := get_of_mem_SortedKeys bodies k hk
    exact ⟨r, hr, fun j hj => h k r j hr hj⟩
  refine ⟨⟨hR1, SortedKeys_nodup _, hR2, ?_⟩, ⟨hB1, SortedKeys_nodup _, hB2, ?_⟩⟩
  · intro hno
    have hok : ∃ types, GenerateTypesForResponses E t responses = .ok types := by
      apply hR2
      intro k r j hr hj
      have := hno k
      simp [ResponseHasJSON, hr, hj] at this
    obtain ⟨types, ht⟩ := hok
    have hnames := hR1 types ht
    rw [List.filter_eq_nil_iff.mpr (fun k _ => by simp [hno k])] at hnames
    rw [ht, List.map_eq_nil_iff.mp hnames]
  · intro hno
    have hok : ∃ types, GenerateTypesForRequestBodies E t bodies = .ok types := by
      apply hB2
      intro k r j hr hj
      have := hno k
      simp [RequestBodyHasJSON, hr, hj] at this
    obtain ⟨types, ht⟩ := hok
    have hnames := hB1 types ht
    rw [List.filter_eq_nil_iff.mpr (fun k _ => by simp [hno k])] at hnames
    rw [ht, List.map_eq_nil_iff.mp hnames]

/-- The sample synthesis never fails. -/
theorem sampleGenerateGoSchema_ok (sref : Option (List (String × Bool)))
    (path : List String) : ∃ s, sampleGenerateGoSchema sref path = .ok s := by
  cases sref with
  | none => exact ⟨_, rfl⟩
  | some props => exact ⟨_, rfl⟩

/-- Of the responses `ok` (JSON) and `blob` (binary) only `ok` gets a type, and of the
request bodies `upload` (binary) and `pet` (JSON) only `pet`. -/
theorem component_types_json_only_witness :
    (∃ types, GenerateTypesForResponses sampleEnv sampleTemplate sampleResponses = .ok types ∧
      types.map (fun td => td.JsonName) = ["ok"]) ∧
    (∃ types, GenerateTypesForRequestBodies sampleEnv sampleTemplate sampleBodies = .ok types ∧
      types.map (fun td => td.JsonName) = ["pet"]) := by
  have h := component_types_json_only sampleEnv sampleTemplate sampleResponses sampleBodies
  constructor
  · obtain ⟨types, ht⟩ := h.1.2.2.1 (fun k r j _ _ => ⟨sampleGenerateGoSchema_ok j.Schema [k], fun _ => ⟨_, rfl⟩⟩)
    refine ⟨types, ht, ?_⟩
    rw [h.1.1 types ht]
    decide
  · obtain ⟨types, ht⟩ := h.2.2.2.1 (fun k r j _ _ => ⟨sampleGenerateGoSchema_ok j.Schema [k], fun _ => ⟨_, rfl⟩⟩)
    refine ⟨types, ht, ?_⟩
    rw [h.2.1 types ht]
    decide

/-- C4, counterexample: the schema `Foo` is not excluded and has a property `bar` that
allows additional properties, so synthesis returns for it an additional type definition
with JSON name `Foo.bar`; `GenerateTypesForSchemas` appends it, although `Foo.bar` is
in the exclusion list. -/
theorem excluded_name_among_additional_types :
    ∃ types, GenerateTypesForSchemas sampleEnv sampleTemplate dottedSchemas ["Foo.bar"] =
        .ok types ∧
      types.map (fun td => td.JsonName) = ["Foo", "Foo.bar"] ∧
      ∃ td ∈ types, td.JsonName ∈ ["Foo.bar"] :=
  ⟨_, rfl, by decide, ⟨_, List.mem_cons_of_mem _ (List.mem_cons_self _ _), by decide⟩⟩

/-- C4, amended: when `GenerateTypesForSchemas` succeeds, an entry of the returned list
whose JSON name is in `excludeSchemas` is never the entry of a component schema: it is
one of the additional type definitions that synthesis returned for a schema that is not
excluded; every schema name that is not excluded has an entry with that JSON name; and
an excluded schema is never passed to `GenerateGoSchema`: the call returns the same
result for any synthesis function that agrees on the schemas that are not excluded. -/
theorem schemas_exclusion (E : Env X) (t : Template X) (schemas : GoMap X.SchemaRef)
    (excludeSchemas : List String) :
    (∀ types, GenerateTypesForSchemas E t schemas excludeSchemas = .ok types →
      (∀ td ∈ types, td.JsonName ∈ excludeSchemas →
        ∃ name ∈ SortedKeys schemas, name ∉ excludeSchemas ∧
          ∃ s, E.GenerateGoSchema (schemas.get name) [name] = .ok s ∧
            td ∈ E.GetAdditionalTypeDefs s) ∧
      (∀ name ∈ SortedKeys schemas, name ∉ excludeSchemas →
        ∃ td ∈ types, td.JsonName = name)) ∧
    (∀ g : Option X.SchemaRef → List String → Except Error (Schema X),
      (∀ name ∈ SortedKeys schemas, name ∉ excludeSchemas →
        g (schemas.get name) [name] = E.GenerateGoSchema (schemas.get name) [name]) →
      GenerateTypesForSchemas { E with GenerateGoSchema := g } t schemas excludeSchemas =
        GenerateTypesForSchemas E t schemas excludeSchemas) := by
  constructor
  · intro types h
    obtain ⟨added, h1, h2, h3⟩ := schemas_loop_spec E schemas excludeSchemas _ _ _ h
    rw [List.nil_append] at h1
    subst h1
    constructor
    · intro td htd hex
      obtain ⟨name, hn, hne, s, hs, hcase⟩ := h2 td htd
      rcases hcase with heq | hadd
      · subst heq
        exact absurd hex hne
      · exact ⟨name, hn, hne, s, hs, hadd⟩
    · intro name hn hne
      obtain ⟨s, _, hmem⟩ := h3 name hn hne
      exact ⟨_, hmem, rfl⟩
  · intro g hg
    exact schemas_loop_congr E schemas excludeSchemas g _ _ hg

/-- With `Tag` excluded, a synthesis that fails on `Tag` does not fail the call, and the
result holds the entry of `Pet` only. -/
theorem schemas_exclusion_witness :
    ∃ types,
      GenerateTypesForSchemas { sampleEnv with GenerateGoSchema := tagFails } sampleTemplate
        petSchemas ["Tag"] = .ok types ∧
      types.map (fun td => td.JsonName) = ["Pet"] := by
  have hkeys : SortedKeys petSchemas = ["Pet", "Tag"] := by decide
  have h := (schemas_exclusion sampleEnv sampleTemplate petSchemas ["Tag"]).2 tagFails
    (by
      intro name hn hne
      rw [hkeys] at hn
      simp only [List.mem_cons, List.mem_singleton, List.not_mem_nil, or_false] at hn hne
      rcases hn with h1 | h1
      · subst h1
        rfl
      · exact absurd h1 hne)
  rw [h]
  exact ⟨_, rfl, by decide⟩

/-- C5, counterexample: a component schema `Foo`, a component parameter `Foo`, and a
component parameter `Bar` that refers to the parameter `Foo`. The three entries of
`allTypes` have the JSON names `Foo`, `Bar`, `Foo` and all three have the type name
`Foo`. -/
theorem allTypes_repeats_type_name :
    ∃ allTypes,
      GenerateTypeDefinitions.allTypes sampleEnv sampleTemplate clashingNames [] =
        .ok allTypes ∧
      allTypes.map (fun td => td.JsonName) = ["Foo", "Bar", "Foo"] ∧
      allTypes.map (fun td => td.TypeName) = ["Foo", "Foo", "Foo"] ∧
      ¬ (allTypes.map (fun td => td.TypeName)).Nodup :=
  ⟨_, rfl, by decide, by decide, by decide⟩

/-- C5, amended: when the collection succeeds, `allTypes` is the concatenation, in this
order, of the component-schema, component-parameter, component-response and
component-request-body types, with nothing removed or renamed. The parameter list has
one entry per parameter key in sorted order, the response and request-body lists one
entry per key with JSON content in sorted order, so within each of these lists the JSON
names are pairwise distinct. Each such entry carries the schema synthesized for the
component of its JSON name, and its type name is `SchemaNameToTypeName` of its JSON
name when that component's `Ref` is empty and, when the `Ref` is not empty,
`SchemaNameToTypeName` of the name `RefPathToGoType` returns for that `Ref`. -/
theorem allTypes_structure (E : Env X) (t : Template X) (swagger : Swagger X)
    (excludeSchemas : List String) (allTypes : List (TypeDefinition X))
    (h : GenerateTypeDefinitions.allTypes E t swagger excludeSchemas = .ok allTypes) :
    ∃ schemaTypes paramTypes responseTypes bodyTypes,
      GenerateTypesForSchemas E t swagger.Components.Schemas excludeSchemas = .ok schemaTypes ∧
      GenerateTypesForParameters E t swagger.Components.Parameters = .ok paramTypes ∧
      GenerateTypesForResponses E t swagger.Components.Responses = .ok responseTypes ∧
      GenerateTypesForRequestBodies E t swagger.Components.RequestBodies = .ok bodyTypes ∧
      allTypes = schemaTypes ++ paramTypes ++ responseTypes ++ bodyTypes ∧
      paramTypes.map (fun td => td.JsonName) = SortedKeys swagger.Components.Parameters ∧
      responseTypes.map (fun td => td.JsonName) =
        (SortedKeys swagger.Components.Responses).filter
          (ResponseHasJSON swagger.Components.Responses) ∧
      bodyTypes.map (fun td => td.JsonName) =
        (SortedKeys swagger.Components.RequestBodies).filter
          (RequestBodyHasJSON swagger.Components.RequestBodies) ∧
      (paramTypes.map (fun td => td.JsonName)).Nodup ∧
      (responseTypes.map (fun td => td.JsonName)).Nodup ∧
      (bodyTypes.map (fun td => td.JsonName)).Nodup ∧
      (∀ td ∈ paramTypes, IsParameterEntry E swagger.Components.Parameters td) ∧
      (∀ td ∈ responseTypes, IsResponseEntry E swagger.Components.Responses td) ∧
      (∀ td ∈ bodyTypes, IsRequestBodyEntry E swagger.Components.RequestBodies td) := by
  unfold GenerateTypeDefinitions.allTypes at h
  split at h
  · exact absurd h (by simp)
  · rename_i schemaTypes hs
    split at h
    · exact absurd h (by simp)
    · rename_i paramTypes hp
      split at h
      · exact absurd h (by simp)
      · rename_i responseTypes hr
        split at h
        · exact absurd h (by simp)
        · rename_i bodyTypes hb
          simp only [Except.ok.injEq] at h
          obtain ⟨pa, p1, p2, p3⟩ := parameters_loop_spec E _ _ _ _ hp
          obtain ⟨ra, r1, r2, r3⟩ := responses_loop_spec E _ _ _ _ hr
          obtain ⟨ba, b1, b2, b3⟩ := bodies_loop_spec E _ _ _ _ hb
          rw [List.nil_append] at p1 r1 b1
          subst p1 r1 b1
          refine ⟨schemaTypes, paramTypes, responseTypes, bodyTypes, hs, hp, hr, hb, h.symm,
            p2, r2, b2, ?_, ?_, ?_, p3, r3, b3⟩
          · rw [p2]
            exact SortedKeys_nodup _
          · rw [r2]
            exact (SortedKeys_nodup _).filter _
          · rw [b2]
            exact (SortedKeys_nodup _).filter _

/-- The document with the schema `Foo`, the parameter `Foo` and the parameter `Bar`
referring to `Foo`: `allTypes` is the entry of the schema, then the entry of `Bar`, named
`Foo` after the target of its reference, then the entry of the parameter `Foo`. -/
theorem allTypes_structure_witness :
    ∃ schemaTypes paramTypes responseTypes bodyTypes,
      GenerateTypesForSchemas sampleEnv sampleTemplate clashingNames.Components.Schemas [] =
        .ok schemaTypes ∧
      GenerateTypesForParameters sampleEnv sampleTemplate clashingNames.Components.Parameters =
        .ok paramTypes ∧
      GenerateTypesForResponses sampleEnv sampleTemplate clashingNames.Components.Responses =
        .ok responseTypes ∧
      GenerateTypesForRequestBodies sampleEnv sampleTemplate
        clashingNames.Components.RequestBodies = .ok bodyTypes ∧
      [{ TypeName := "Foo", JsonName := "Foo"
         Schema := { HasAdditionalProperties := false, rest := [] } },
       { TypeName := "Foo", JsonName := "Bar"
         Schema := { HasAdditionalProperties := false, rest := [] } },
       { TypeName := "Foo", JsonName := "Foo"
         Schema := { HasAdditionalProperties := false, rest := [] } }] =
        schemaTypes ++ paramTypes ++ responseTypes ++ bodyTypes ∧
      paramTypes.map (fun td => td.JsonName) = SortedKeys clashingNames.Components.Parameters ∧
      responseTypes.map (fun td => td.JsonName) =
        (SortedKeys clashingNames.Components.Responses).filter
          (ResponseHasJSON clashingNames.Components.Responses) ∧
      bodyTypes.map (fun td => td.JsonName) =
        (SortedKeys clashingNames.Components.RequestBodies).filter
          (RequestBodyHasJSON clashingNames.Components.RequestBodies) ∧
      (paramTypes.map (fun td => td.JsonName)).Nodup ∧
      (responseTypes.map (fun td => td.JsonName)).Nodup ∧
      (bodyTypes.map (fun td => td.JsonName)).Nodup ∧
      (∀ td ∈ paramTypes, IsParameterEntry sampleEnv clashingNames.Components.Parameters td) ∧
      (∀ td ∈ responseTypes,
        IsResponseEntry sampleEnv clashingNames.Components.Responses td) ∧
      (∀ td ∈ bodyTypes,
        IsRequestBodyEntry sampleEnv clashingNames.Components.RequestBodies td) :=
  allTypes_structure sampleEnv sampleTemplate clashingNames [] _ rfl

/-! ## `GenerateConstants` and determinism -/

/-- The loop of codegen.go:194-196 appends the visited keys in the order of the visit. -/
theorem constants_foldl (names : List String) (c : Constants) :
    (names.foldl
      (fun constants providerName =>
        { constants with
          SecuritySchemeProviderNames :=
            constants.SecuritySchemeProviderNames ++ [providerName] })
      c).SecuritySchemeProviderNames = c.SecuritySchemeProviderNames ++ names := by
  induction names generalizing c with
  | nil => simp
  | cons n ns ih => simp [List.foldl_cons, ih]

/-- The list in the context of constants.tmpl is the key list of the map in the order
of the `range`. -/
theorem constants_eq (E : Env X) (ops : List (OperationDefinition X)) :
    (GenerateConstants.constants E ops).SecuritySchemeProviderNames =
      E.mapRange (GenerateConstants.providerNames E ops) := by
  unfold GenerateConstants.constants
  rw [constants_foldl]
  rfl

/-- Inserting a key keeps the keys distinct. -/
theorem setInsert_nodup (m : List String) (k : String) (h : m.Nodup) :
    (setInsert m k).Nodup := by
  unfold setInsert
  split
  · exact h
  · rename_i hk
    rw [List.nodup_append]
    refine ⟨h, List.nodup_singleton k, ?_⟩
    intro a ha hb
    rw [List.mem_singleton] at hb
    exact hk (hb ▸ ha)

/-- The keys after an insertion. -/
theorem mem_setInsert (m : List String) (k a : String) :
    a ∈ setInsert m k ↔ a ∈ m ∨ a = k := by
  unfold setInsert
  split
  · rename_i hk
    constructor
    · exact Or.inl
    · rintro (h | h)
      · exact h
      · exact h ▸ hk
  · simp

/-- The inner loop of codegen.go:188-191. -/
theorem inner_fold_spec (f : String → String) (sds : List SecurityDefinition)
    (m : List String) (h : m.Nodup) :
    (sds.foldl (fun m sd => setInsert m (f sd.ProviderName)) m).Nodup ∧
    ∀ a, a ∈ sds.foldl (fun m sd => setInsert m (f sd.ProviderName)) m ↔
      a ∈ m ∨ a ∈ sds.map (fun sd => f sd.ProviderName) := by
  induction sds generalizing m with
  | nil => simp [h]
  | cons sd sds ih =>
    simp only [List.foldl_cons]
    obtain ⟨h1, h2⟩ := ih (setInsert m (f sd.ProviderName)) (setInsert_nodup _ _ h)
    refine ⟨h1, fun a => ?_⟩
    rw [h2, mem_setInsert]
    simp only [List.map_cons, List.mem_cons]
    tauto

/-- The outer loop of codegen.go:187-192. -/
theorem outer_fold_spec (E : Env X) (ops : List (OperationDefinition X))
    (m : List String) (h : m.Nodup) :
    (ops.foldl
      (fun m op =>
        op.SecurityDefinitions.foldl
          (fun m sd => setInsert m (E.SanitizeGoIdentity sd.ProviderName)) m) m).Nodup ∧
    ∀ a, a ∈ ops.foldl
      (fun m op =>
        op.SecurityDefinitions.foldl
          (fun m sd => setInsert m (E.SanitizeGoIdentity sd.ProviderName)) m) m ↔
      a ∈ m ∨ a ∈ (ops.flatMap (fun op => op.SecurityDefinitions)).map
        (fun sd => E.SanitizeGoIdentity sd.ProviderName) := by
  induction ops generalizing m with
  | nil => simp [h]
  | cons op ops ih =>
    simp only [List.foldl_cons]
    obtain ⟨hn, hm⟩ := inner_fold_spec E.SanitizeGoIdentity op.SecurityDefinitions m h
    obtain ⟨h1, h2⟩ := ih _ hn
    refine ⟨h1, fun a => ?_⟩
    rw [h2, hm]
    simp only [List.flatMap_cons, List.map_append, List.mem_append]
    tauto

/-- What `GenerateConstants` does guarantee, for every order of the `range`: the list
holds each sanitized provider name exactly once and nothing else. -/
theorem constants_perm_dedup (E : Env X) (hr : IsMapRange E.mapRange)
    (ops : List (OperationDefinition X)) :
    ((GenerateConstants.constants E ops).SecuritySchemeProviderNames).Perm
      (((ops.flatMap (fun op => op.SecurityDefinitions)).map
        (fun sd => E.SanitizeGoIdentity sd.ProviderName)).dedup) := by
  rw [constants_eq]
  refine (hr _).trans ?_
  obtain ⟨hn, hm⟩ := outer_fold_spec E ops [] List.nodup_nil
  unfold GenerateConstants.providerNames
  refine (List.perm_ext_iff_of_nodup hn (List.nodup_dedup _)).mpr ?_
  intro a
  rw [hm, List.mem_dedup]
  simp

/-- C3, at the failing input: two operations secured by schemes `b` and `a`, and a
`range` that visits the keys as they were inserted. The list passed to constants.tmpl is
`b, a`; the sorted, de-duplicated list of sanitized provider names is `a, b`. -/
theorem constants_not_sorted :
    IsMapRange sampleEnv.mapRange ∧
    (GenerateConstants.constants sampleEnv twoProvidersOps).SecuritySchemeProviderNames =
      ["b", "a"] ∧
    (((twoProvidersOps.flatMap (fun op => op.SecurityDefinitions)).map
      (fun sd => sampleEnv.SanitizeGoIdentity sd.ProviderName)).dedup).insertionSort strLe =
      ["a", "b"] ∧
    ¬ List.Sorted strLe
      (GenerateConstants.constants sampleEnv twoProvidersOps).SecuritySchemeProviderNames := by
  refine ⟨fun keys => List.Perm.refl keys, by decide, by decide, by decide⟩

/-- C2, at the failing input: the same document, package name and options, the same
template engine, schema synthesis and formatter, and two orders of the `range` over the
map of provider names. `Generate` returns `ba` in one run and `ab` in the other. -/
theorem Generate_depends_on_map_order :
    IsMapRange sampleEnv.mapRange ∧ IsMapRange sampleEnvReversed.mapRange ∧
    sampleEnv.OperationDefinitions twoProviders = .ok twoProvidersOps ∧
    Generate sampleEnv twoProviders "api" typesOnly =
      { code := utf8 "ba", err := none, stdout := [] } ∧
    Generate sampleEnvReversed twoProviders "api" typesOnly =
      { code := utf8 "ab", err := none, stdout := [] } ∧
    Generate sampleEnv twoProviders "api" typesOnly ≠
      Generate sampleEnvReversed twoProviders "api" typesOnly := by
  have h1 : Generate sampleEnv twoProviders "api" typesOnly =
      { code := utf8 "ba", err := none, stdout := [] } := by decide
  have h2 : Generate sampleEnvReversed twoProviders "api" typesOnly =
      { code := utf8 "ab", err := none, stdout := [] } := by decide
  refine ⟨fun keys => List.Perm.refl keys, fun keys => List.reverse_perm keys, rfl, h1, h2, ?_⟩
  rw [h1, h2]
  decide

/-! ## `Generate` -/

/-- An error of this stage is an error return with the empty string. -/
theorem typesStage_error (E : Env X) (t : Template X) (swagger : Swagger X)
    (ops : List (OperationDefinition X)) (opts : Options) (r : GenerateResult)
    (h : Generate.typesStage E t swagger ops opts = .error r) :
    ∃ err message, r = Generate.fail err message := by
  unfold Generate.typesStage at h
  split at h
  · split at h
    · exact ⟨_, _, (Except.error.inj h).symm⟩
    · split at h
      · exact ⟨_, _, (Except.error.inj h).symm⟩
      · exact absurd h (by simp)
  · exact absurd h (by simp)

/-- A success of this stage: the output of the generator when requested, the empty
string otherwise. -/
theorem typesStage_ok (E : Env X) (t : Template X) (swagger : Swagger X)
    (ops : List (OperationDefinition X)) (opts : Options) (ty c : Code)
    (h : Generate.typesStage E t swagger ops opts = .ok (ty, c)) :
    (opts.GenerateTypes = true →
      GenerateTypeDefinitions E t swagger ops opts.ExcludeSchemas = .ok ty ∧
      GenerateConstants E t ops = .ok c) ∧
    (opts.GenerateTypes = false → ty = [] ∧ c = []) := by
  unfold Generate.typesStage at h
  split at h
  · rename_i hT
    split at h
    · exact absurd h (by simp)
    · rename_i td htd
      split at h
      · exact absurd h (by simp)
      · rename_i cd hcd
        simp only [Except.ok.injEq, Prod.mk.injEq] at h
        obtain ⟨h1, h2⟩ := h
        subst h1 h2
        exact ⟨fun _ => ⟨htd, hcd⟩, fun hf => absurd hT (by simp [hf])⟩
  · rename_i hT
    simp only [Except.ok.injEq, Prod.mk.injEq] at h
    exact ⟨fun ht => absurd ht hT, fun _ => ⟨h.1.symm, h.2.symm⟩⟩

/-- An error of this stage is an error return with the empty string. -/
theorem chiServerStage_error (E : Env X) (t : Template X)
    (ops : List (OperationDefinition X)) (opts : Options) (r : GenerateResult)
    (h : Generate.chiServerStage E t ops opts = .error r) :
    ∃ err message, r = Generate.fail err message := by
  unfold Generate.chiServerStage at h
  split at h
  · split at h
    · exact ⟨_, _, (Except.error.inj h).symm⟩
    · exact absurd h (by simp)
  · exact absurd h (by simp)

/-- A success of this stage: the output of the generator when requested, the empty
string otherwise. -/
theorem chiServerStage_ok (E : Env X) (t : Template X)
    (ops : List (OperationDefinition X)) (opts : Options) (out : Code)
    (h : Generate.chiServerStage E t ops opts = .ok out) :
    (opts.GenerateChiServer = true → E.GenerateChiServer t ops = .ok out) ∧
    (opts.GenerateChiServer = false → out = []) := by
  unfold Generate.chiServerStage at h
  split at h
  · rename_i hT
    split at h
    · exact absurd h (by simp)
    · rename_i o ho
      simp only [Except.ok.injEq] at h
      subst h
      exact ⟨fun _ => ho, fun hf => absurd hT (by simp [hf])⟩
  · rename_i hT
    simp only [Except.ok.injEq] at h
    exact ⟨fun ht => absurd ht hT, fun _ => h.symm⟩

/-- An error of this stage is an error return with the empty string. -/
theorem clientStage_error (E : Env X) (t : Template X)
    (ops : List (OperationDefinition X)) (opts : Options) (r : GenerateResult)
    (h : Generate.clientStage E t ops opts = .error r) :
    ∃ err message, r = Generate.fail err message := by
  unfold Generate.clientStage at h
  split at h
  · split at h
    · exact ⟨_, _, (Except.error.inj h).symm⟩
    · exact absurd h (by simp)
  · exact absurd h (by simp)

/-- A success of this stage: the output of the generator when requested, the empty
string otherwise. -/
theorem clientStage_ok (E : Env X) (t : Template X)
    (ops : List (OperationDefinition X)) (opts : Options) (out : Code)
    (h : Generate.clientStage E t ops opts = .ok out) :
    (opts.GenerateClient = true → E.GenerateClient t ops = .ok out) ∧
    (opts.GenerateClient = false → out = []) := by
  unfold Generate.clientStage at h
  split at h
  · rename_i hT
    split at h
    · exact absurd h (by simp)
    · rename_i o ho
      simp only [Except.ok.injEq] at h
      subst h
      exact ⟨fun _ => ho, fun hf => absurd hT (by simp [hf])⟩
  · rename_i hT
    simp only [Except.ok.injEq] at h
    exact ⟨fun ht => absurd ht hT, fun _ => h.symm⟩

/-- An error of this stage is an error return with the empty string. -/
theorem clientWithResponsesStage_error (E : Env X) (t : Template X)
    (ops : List (OperationDefinition X)) (opts : Options) (r : GenerateResult)
    (h : Generate.clientWithResponsesStage E t ops opts = .error r) :
    ∃ err message, r = Generate.fail err message := by
  unfold Generate.clientWithResponsesStage at h
  split at h
  · split at h
    · exact ⟨_, _, (Except.error.inj h).symm⟩
    · exact absurd h (by simp)
  · exact absurd h (by simp)

/-- A success of this stage: the output of the generator when requested, the empty
string otherwise. -/
theorem clientWithResponsesStage_ok (E : Env X) (t : Template X)
    (ops : List (OperationDefinition X)) (opts : Options) (out : Code)
    (h : Generate.clientWithResponsesStage E t ops opts = .ok out) :
    (opts.GenerateClient = true → E.GenerateClientWithResponses t ops = .ok out) ∧
    (opts.GenerateClient = false → out = []) := by
  unfold Generate.clientWithResponsesStage at h
  split at h
  · rename_i hT
    split at h
    · exact absurd h (by simp)
    · rename_i o ho
      simp only [Except.ok.injEq] at h
      subst h
      exact ⟨fun _ => ho, fun hf => absurd hT (by simp [hf])⟩
  · rename_i hT
    simp only [Except.ok.injEq] at h
    exact ⟨fun ht => absurd ht hT, fun _ => h.symm⟩

/-- The buffer is the concatenation of the sections in the order of the writes. -/
theorem buffer_eq (opts : Options) (c ty cl cwr chi : Code) :
    Generate.buffer opts c ty cl cwr chi =
      c ++ ty ++ (if opts.GenerateClient then cl ++ cwr else []) ++
        (if opts.GenerateChiServer then chi else []) := by
  unfold Generate.buffer
  cases opts.GenerateClient <;> cases opts.GenerateChiServer <;> simp

/-- A run of `Generate` without error went through every stage. -/
theorem Generate_success_inv (E : Env X) (swagger : Swagger X) (packageName : String)
    (opts : Options) (h : (Generate E swagger packageName opts).err = none) :
    ∃ t ops ty c chi cl cwr,
      E.Parse opts = .ok t ∧ E.OperationDefinitions swagger = .ok ops ∧
      Generate.typesStage E t swagger ops opts = .ok (ty, c) ∧
      Generate.chiServerStage E t ops opts = .ok chi ∧
      Generate.clientStage E t ops opts = .ok cl ∧
      Generate.clientWithResponsesStage E t ops opts = .ok cwr ∧
      E.importsProcess (packageName ++ ".go")
        (SanitizeCode (Generate.buffer opts c ty cl cwr chi)) =
        .ok (Generate E swagger packageName opts).code := by
  generalize hr : Generate E swagger packageName opts = r at h ⊢
  unfold Generate at hr
  split at hr
  · subst hr; simp [Generate.fail] at h
  · rename_i t ht
    split at hr
    · subst hr; simp [Generate.fail] at h
    · rename_i ops hops
      split at hr
      · rename_i r1 h1
        obtain ⟨e, m, hf⟩ := typesStage_error E t swagger ops opts r1 h1
        subst hr; subst hf; simp [Generate.fail] at h
      · rename_i ty c h1
        split at hr
        · rename_i r2 h2
          obtain ⟨e, m, hf⟩ := chiServerStage_error E t ops opts r2 h2
          subst hr; subst hf; simp [Generate.fail] at h
        · rename_i chi h2
          split at hr
          · rename_i r3 h3
            obtain ⟨e, m, hf⟩ := clientStage_error E t ops opts r3 h3
            subst hr; subst hf; simp [Generate.fail] at h
          · rename_i cl h3
            split at hr
            · rename_i r4 h4
              obtain ⟨e, m, hf⟩ := clientWithResponsesStage_error E t ops opts r4 h4
              subst hr; subst hf; simp [Generate.fail] at h
            · rename_i cwr h4
              simp only at hr
              split at hr
              · subst hr; simp at h
              · rename_i out hout
                subst hr
                exact ⟨t, ops, ty, c, chi, cl, cwr, ht, hops, h1, h2, h3, h4, hout⟩

/-- Every error return of `Generate` carries the empty string. -/
theorem Generate_error_code (E : Env X) (swagger : Swagger X) (packageName : String)
    (opts : Options) (h : (Generate E swagger packageName opts).err ≠ none) :
    (Generate E swagger packageName opts).code = [] := by
  generalize hr : Generate E swagger packageName opts = r at h ⊢
  unfold Generate at hr
  split at hr
  · subst hr; rfl
  · rename_i t ht
    split at hr
    · subst hr; rfl
    · rename_i ops hops
      split at hr
      · rename_i r1 h1
        obtain ⟨e, m, hf⟩ := typesStage_error E t swagger ops opts r1 h1
        subst hr; subst hf; rfl
      · rename_i ty c h1
        split at hr
        · rename_i r2 h2
          obtain ⟨e, m, hf⟩ := chiServerStage_error E t ops opts r2 h2
          subst hr; subst hf; rfl
        · rename_i chi h2
          split at hr
          · rename_i r3 h3
            obtain ⟨e, m, hf⟩ := clientStage_error E t ops opts r3 h3
            subst hr; subst hf; rfl
          · rename_i cl h3
            split at hr
            · rename_i r4 h4
              obtain ⟨e, m, hf⟩ := clientWithResponsesStage_error E t ops opts r4 h4
              subst hr; subst hf; rfl
            · rename_i cwr h4
              simp only at hr
              split at hr
              · subst hr; rfl
              · subst hr; simp at h

/-- C1: on every input on which `Generate` succeeds, the text handed to `SanitizeCode`
and then to the formatter is the constants section, then the type-definitions section,
then the client section followed by the client-with-responses section when
`opts.GenerateClient` is set, then the server section when `opts.GenerateChiServer` is
set; each section is the output of its generator when it was requested and the empty
string otherwise. -/
theorem Generate_concatenation (E : Env X) (swagger : Swagger X) (packageName : String)
    (opts : Options) (h : (Generate E swagger packageName opts).err = none) :
    ∃ t ops constantDefinitions typeDefinitions clientOut clientWithResponsesOut chiServerOut,
      E.Parse opts = .ok t ∧ E.OperationDefinitions swagger = .ok ops ∧
      (if opts.GenerateTypes then
        GenerateConstants E t ops = .ok constantDefinitions ∧
        GenerateTypeDefinitions E t swagger ops opts.ExcludeSchemas = .ok typeDefinitions
      else constantDefinitions = [] ∧ typeDefinitions = []) ∧
      (if opts.GenerateClient then
        E.GenerateClient t ops = .ok clientOut ∧
        E.GenerateClientWithResponses t ops = .ok clientWithResponsesOut
      else clientOut = [] ∧ clientWithResponsesOut = []) ∧
      (if opts.GenerateChiServer then E.GenerateChiServer t ops = .ok chiServerOut
      else chiServerOut = []) ∧
      Generate.buffer opts constantDefinitions typeDefinitions clientOut
          clientWithResponsesOut chiServerOut =
        constantDefinitions ++ typeDefinitions ++
          (if opts.GenerateClient then clientOut ++ clientWithResponsesOut else []) ++
          (if opts.GenerateChiServer then chiServerOut else []) ∧
      E.importsProcess (packageName ++ ".go")
        (SanitizeCode
          (constantDefinitions ++ typeDefinitions ++
            (if opts.GenerateClient then clientOut ++ clientWithResponsesOut else []) ++
            (if opts.GenerateChiServer then chiServerOut else []))) =
        .ok (Generate E swagger packageName opts).code := by
  obtain ⟨t, ops, ty, c, chi, cl, cwr, ht, hops, h1, h2, h3, h4, hout⟩ :=
    Generate_success_inv E swagger packageName opts h
  obtain ⟨h1t, h1f⟩ := typesStage_ok E t swagger ops opts ty c h1
  obtain ⟨h2t, h2f⟩ := chiServerStage_ok E t ops opts chi h2
  obtain ⟨h3t, h3f⟩ := clientStage_ok E t ops opts cl h3
  obtain ⟨h4t, h4f⟩ := clientWithResponsesStage_ok E t ops opts cwr h4
  refine ⟨t, ops, c, ty, cl, cwr, chi, ht, hops, ?_, ?_, ?_, buffer_eq _ _ _ _ _ _, ?_⟩
  · cases hT : opts.GenerateTypes with
    | true => simpa using ⟨(h1t hT).2, (h1t hT).1⟩
    | false => simpa using ⟨(h1f hT).2, (h1f hT).1⟩
  · cases hT : opts.GenerateClient with
    | true => simpa using ⟨h3t hT, h4t hT⟩
    | false => simpa using ⟨h3f hT, h4f hT⟩
  · cases hT : opts.GenerateChiServer with
    | true => simpa using h2t hT
    | false => simpa using h2f hT
  · rw [← buffer_eq]
    exact hout

/-- A run with every section requested, on the document with two security schemes. -/
theorem Generate_concatenation_witness :
    ∃ t ops constantDefinitions typeDefinitions clientOut clientWithResponsesOut chiServerOut,
      sampleEnv.Parse allSections = .ok t ∧
      sampleEnv.OperationDefinitions twoProviders = .ok ops ∧
      (if allSections.GenerateTypes then
        GenerateConstants sampleEnv t ops = .ok constantDefinitions ∧
        GenerateTypeDefinitions sampleEnv t twoProviders ops allSections.ExcludeSchemas =
          .ok typeDefinitions
      else constantDefinitions = [] ∧ typeDefinitions = []) ∧
      (if allSections.GenerateClient then
        sampleEnv.GenerateClient t ops = .ok clientOut ∧
        sampleEnv.GenerateClientWithResponses t ops = .ok clientWithResponsesOut
      else clientOut = [] ∧ clientWithResponsesOut = []) ∧
      (if allSections.GenerateChiServer then sampleEnv.GenerateChiServer t ops = .ok chiServerOut
      else chiServerOut = []) ∧
      Generate.buffer allSections constantDefinitions typeDefinitions clientOut
          clientWithResponsesOut chiServerOut =
        constantDefinitions ++ typeDefinitions ++
          (if allSections.GenerateClient then clientOut ++ clientWithResponsesOut else []) ++
          (if allSections.GenerateChiServer then chiServerOut else []) ∧
      sampleEnv.importsProcess ("api" ++ ".go")
        (SanitizeCode
          (constantDefinitions ++ typeDefinitions ++
            (if allSections.GenerateClient then clientOut ++ clientWithResponsesOut
              else []) ++
            (if allSections.GenerateChiServer then chiServerOut else []))) =
        .ok (Generate sampleEnv twoProviders "api" allSections).code :=
  Generate_concatenation sampleEnv twoProviders "api" allSections (by decide)

/-- C8: `Generate` aborts on the first error. Every error return carries the empty
string; when a stage fails after the stages before it succeeded, the result is the
wrapped error of that stage, whatever the later stages would return; and a nil error
means that template parsing, operation extraction, every requested generator and the
formatter succeeded. -/
theorem Generate_aborts_on_first_error (E : Env X) (swagger : Swagger X)
    (packageName : String) (opts : Options) :
    ((Generate E swagger packageName opts).err ≠ none →
      (Generate E swagger packageName opts).code = []) ∧
    (∀ e, E.Parse opts = .error e →
      Generate E swagger packageName opts =
        Generate.fail e "error parsing oapi-codegen templates") ∧
    (∀ t e, E.Parse opts = .ok t → E.OperationDefinitions swagger = .error e →
      Generate E swagger packageName opts =
        Generate.fail e "error creating operation definitions") ∧
    (∀ t ops e, E.Parse opts = .ok t → E.OperationDefinitions swagger = .ok ops →
      opts.GenerateTypes = true →
      GenerateTypeDefinitions E t swagger ops opts.ExcludeSchemas = .error e →
      Generate E swagger packageName opts =
        Generate.fail e "error generating type definitions") ∧
    (∀ t ops ty e, E.Parse opts = .ok t → E.OperationDefinitions swagger = .ok ops →
      opts.GenerateTypes = true →
      GenerateTypeDefinitions E t swagger ops opts.ExcludeSchemas = .ok ty →
      GenerateConstants E t ops = .error e →
      Generate E swagger packageName opts = Generate.fail e "error generating constants") ∧
    (∀ t ops ty c e, E.Parse opts = .ok t → E.OperationDefinitions swagger = .ok ops →
      Generate.typesStage E t swagger ops opts = .ok (ty, c) →
      opts.GenerateChiServer = true → E.GenerateChiServer t ops = .error e →
      Generate E swagger packageName opts =
        Generate.fail e "error generating Go handlers for Paths") ∧
    (∀ t ops ty c chi e, E.Parse opts = .ok t → E.OperationDefinitions swagger = .ok ops →
      Generate.typesStage E t swagger ops opts = .ok (ty, c) →
      Generate.chiServerStage E t ops opts = .ok chi →
      opts.GenerateClient = true → E.GenerateClient t ops = .error e →
      Generate E swagger packageName opts = Generate.fail e "error generating client") ∧
    (∀ t ops ty c chi cl e, E.Parse opts = .ok t → E.OperationDefinitions swagger = .ok ops →
      Generate.typesStage E t swagger ops opts = .ok (ty, c) →
      Generate.chiServerStage E t ops opts = .ok chi →
      Generate.clientStage E t ops opts = .ok cl →
      opts.GenerateClient = true → E.GenerateClientWithResponses t ops = .error e →
      Generate E swagger packageName opts =
        Generate.fail e "error generating client with responses") ∧
    (∀ t ops ty c chi cl cwr e, E.Parse opts = .ok t →
      E.OperationDefinitions swagger = .ok ops →
      Generate.typesStage E t swagger ops opts = .ok (ty, c) →
      Generate.chiServerStage E t ops opts = .ok chi →
      Generate.clientStage E t ops opts = .ok cl →
      Generate.clientWithResponsesStage E t ops opts = .ok cwr →
      E.importsProcess (packageName ++ ".go")
        (SanitizeCode (Generate.buffer opts c ty cl cwr chi)) = .error e →
      Generate E swagger packageName opts =
        { code := [], err := some (Wrap e "error formatting Go code")
          stdout := [SanitizeCode (Generate.buffer opts c ty cl cwr chi)] }) ∧
    ((Generate E swagger packageName opts).err = none →
      ∃ t ops, E.Parse opts = .ok t ∧ E.OperationDefinitions swagger = .ok ops ∧
        (opts.GenerateTypes = true →
          (∃ ty, GenerateTypeDefinitions E t swagger ops opts.ExcludeSchemas = .ok ty) ∧
          ∃ c, GenerateConstants E t ops = .ok c) ∧
        (opts.GenerateChiServer = true → ∃ out, E.GenerateChiServer t ops = .ok out) ∧
        (opts.GenerateClient = true →
          (∃ out, E.GenerateClient t ops = .ok out) ∧
          ∃ out, E.GenerateClientWithResponses t ops = .ok out) ∧
        ∃ src out, E.importsProcess (packageName ++ ".go") src = .ok out) := by
  refine ⟨Generate_error_code E swagger packageName opts, ?_, ?_, ?_, ?_, ?_, ?_, ?_, ?_, ?_⟩
  · intro e h
    simp only [Generate, h]
  · intro t e h1 h2
    simp only [Generate, h1, h2]
  · intro t ops e h1 h2 hT h3
    simp only [Generate, h1, h2, Generate.typesStage, hT, if_true, h3]
  · intro t ops ty e h1 h2 hT h3 h4
    simp only [Generate, h1, h2, Generate.typesStage, hT, if_true, h3, h4]
  · intro t ops ty c e h1 h2 h3 hT h4
    simp only [Generate, h1, h2, h3, Generate.chiServerStage, hT, if_true, h4]
  · intro t ops ty c chi e h1 h2 h3 h4 hT h5
    simp only [Generate, h1, h2, h3, h4, Generate.clientStage, hT, if_true, h5]
  · intro t ops ty c chi cl e h1 h2 h3 h4 h5 hT h6
    simp only [Generate, h1, h2, h3, h4, h5, Generate.clientWithResponsesStage, hT, if_true, h6]
  · intro t ops ty c chi cl cwr e h1 h2 h3 h4 h5 h6 h7
    simp only [Generate, h1, h2, h3, h4, h5, h6, h7]
  · intro h
    obtain ⟨t, ops, ty, c, chi, cl, cwr, ht, hops, h1, h2, h3, h4, hout⟩ :=
      Generate_success_inv E swagger packageName opts h
    refine ⟨t, ops, ht, hops, ?_, ?_, ?_, ⟨_, _, hout⟩⟩
    · intro hT
      obtain ⟨ha, hb⟩ := (typesStage_ok E t swagger ops opts ty c h1).1 hT
      exact ⟨⟨ty, ha⟩, ⟨c, hb⟩⟩
    · intro hT
      exact ⟨chi, (chiServerStage_ok E t ops opts chi h2).1 hT⟩
    · intro hT
      exact ⟨⟨cl, (clientStage_ok E t ops opts cl h3).1 hT⟩,
        ⟨cwr, (clientWithResponsesStage_ok E t ops opts cwr h4).1 hT⟩⟩

/-- A failing operation extraction and a failing client generator: in both runs the
result is the wrapped error of that stage with the empty string. -/
theorem Generate_aborts_on_first_error_witness :
    Generate sampleEnvNoOperations twoProviders "api" allSections =
      Generate.fail "no paths" "error creating operation definitions" ∧
    Generate sampleEnvNoClient twoProviders "api" allSections =
      Generate.fail "no client" "error generating client" ∧
    (Generate sampleEnvNoClient twoProviders "api" allSections).code = [] :=
  ⟨(Generate_aborts_on_first_error sampleEnvNoOperations twoProviders "api" allSections).2.2.1
      sampleTemplate "no paths" rfl rfl,
    (Generate_aborts_on_first_error sampleEnvNoClient twoProviders "api"
      allSections).2.2.2.2.2.2.1
      sampleTemplate twoProvidersOps [] (utf8 "ba") (utf8 "server;") "no client"
      rfl rfl (by decide) (by decide) rfl rfl,
    (Generate_aborts_on_first_error sampleEnvNoClient twoProviders "api" allSections).1
      (by decide)⟩

end Theorems

/-! ## The target loop of `main` -/

/-- C10, at the failing input: with no `-generate` flag the targets are those of the
default `types,client,server,spec`, and the loop exits with status 1 at `server`; of the
seven options the usage text names, `server`, `spec`, `skip-fmt` and `skip-prune` each
reach the `default` branch, and `types`, `client` and `chi-server` do not. -/
theorem main_rejects_documented_targets :
    configFromFlags.GenerateTargets flagGenerateDefault =
      ["types", "client", "server", "spec"] ∧
    main.targetLoop (configFromFlags.GenerateTargets flagGenerateDefault) Options.zero =
      .error { status := 1, printed := "unknown generate option server\n" } ∧
    documentedTargets.filter
      (fun g => decide (main.targetLoop [g] Options.zero =
        .error { status := 1, printed := "unknown generate option " ++ g ++ "\n" })) =
      ["server", "spec", "skip-fmt", "skip-prune"] ∧
    documentedTargets.filter
      (fun g => (main.targetLoop [g] Options.zero).toBool) =
      ["types", "client", "chi-server"] := by
  refine ⟨by decide, by decide, by decide, by decide⟩

end Codegen
